import Mathlib

/-!
Verification of the probe-rs flash loader and NXP debug sequences.

This file gives a shallow embedding of the flashing loader
(`src/probe-rs/src/flashing/loader.rs`) and of the NXP ARM debug sequences
(`src/probe-rs/src/architecture/arm/sequences/nxp.rs`), and proves the
stated properties about them.

Conventions of the embedding:
* `u64` / `u32` values become `Nat` (the code only compares, masks and
  offsets them; no wrap-around arithmetic occurs in the modelled paths).
* Rust `Range<u64>` becomes `MemRange` with half-open `[start, stop)`.
* Fallible Rust functions returning `Result` become `Except`.
* A Rust `unwrap` on `None` (a panic) is modelled by an `Option` layer:
  `none` means the function panicked.
* Probe and target I/O is modelled by environments that list the values
  successive reads return, and by traces of the writes the code issues.
  Wall-clock deadlines are modelled by the (finite) list of reads that
  complete inside the deadline window: exhausting the list is the timeout.
* Bit-field registers (`CTRL/STAT`, `ABORT`, `DEMCR`, `DHCSR`) are modelled
  at field granularity, mirroring the accessor methods the source calls;
  their packed layouts live outside the four source files.
-/

namespace ProbeRs

/-- Half-open address interval `[start, stop)`, the embedding of
`core::ops::Range<u64>`. -/
structure MemRange where
  start : Nat
  stop : Nat
  deriving DecidableEq, Repr

/-- `Range::contains`: `start <= a && a < stop`. -/
def MemRange.containsAddr (r : MemRange) (a : Nat) : Bool :=
  r.start ≤ a && a < r.stop

/-- Modelled from the spec: `MemoryRange::contains_range` lives in the
`probe-rs-target` crate, which is not under `src/`. Spec section 4.G: keep the
algorithms whose `address_range` fully contains the region range. -/
def MemRange.containsRange (outer inner : MemRange) : Bool :=
  outer.start ≤ inner.start && inner.stop ≤ outer.stop

/-- The `Nvm` variant payload of `MemoryRegion` (range plus owning cores). -/
structure NvmRegion where
  range : MemRange
  cores : List String
  deriving DecidableEq, Repr

/-- The `Ram` variant payload of `MemoryRegion`. -/
structure RamRegion where
  range : MemRange
  cores : List String
  deriving DecidableEq, Repr

/-- The `Generic` variant payload of `MemoryRegion`. -/
structure GenericRegion where
  range : MemRange
  cores : List String
  deriving DecidableEq, Repr

/-- `probe_rs_target::MemoryRegion`: tagged union of NVM, RAM and generic
memory regions. -/
inductive MemoryRegion where
  | nvm (region : NvmRegion)
  | ram (region : RamRegion)
  | generic (region : GenericRegion)
  deriving DecidableEq, Repr

/-- The `range` projection used by `FlashLoader::get_region_for_address`. -/
def MemoryRegion.range : MemoryRegion → MemRange
  | .nvm r => r.range
  | .ram r => r.range
  | .generic r => r.range

/-- `TargetDescriptionSource`: where the memory map came from; carried in
`NoSuitableNvm` for diagnostics only. -/
inductive TargetDescriptionSource where
  | builtIn
  | custom
  deriving DecidableEq, Repr

/-- `flash_properties` of a `RawFlashAlgorithm`; only the `address_range`
field is consulted by the loader. -/
structure FlashProperties where
  address_range : MemRange
  deriving DecidableEq, Repr

/-- `probe_rs_target::RawFlashAlgorithm`, restricted to the fields the
loader reads: `name`, `default` and `flash_properties.address_range`. -/
structure RawFlashAlgorithm where
  name : String
  default : Bool
  flash_properties : FlashProperties
  deriving DecidableEq, Repr

/-- A target core; the loader only looks at its name. -/
structure TargetCore where
  name : String
  deriving DecidableEq, Repr

/-- The `Target`, restricted to the fields `FlashLoader::commit` and
`get_flash_algorithm_for_region` read. -/
structure Target where
  name : String
  cores : List TargetCore
  flash_algorithms : List RawFlashAlgorithm
  memory_map : List MemoryRegion
  deriving DecidableEq, Repr

/-- `FlashError`, restricted to the variants the modelled paths produce. -/
inductive FlashError where
  | noSuitableNvm (start stop : Nat) (description_source : TargetDescriptionSource)
  | noFlashLoaderAlgorithmAttached (name : String)
  | multipleFlashLoaderAlgorithmsNoDefault (region : NvmRegion)
  | multipleDefaultFlashLoaderAlgorithms (region : NvmRegion)
  | noNvmCoreAccess (region : NvmRegion)
  | noRamCoreAccess (region : RamRegion)
  | dataOverlaps (address : Nat)
  | verifyFailed
  deriving DecidableEq, Repr

/-- Modelled from the spec: `FlashBuilder` (`builder.rs` is not under
`src/`). Spec section 4.E: a mapping from start address to owned byte
sequence, iterated in ascending address order. -/
structure FlashBuilder where
  data : List (Nat × List Nat)
  deriving DecidableEq, Repr

/-- Insert a span keeping the list sorted by start address (the `BTreeMap`
ordering of spec section 3). -/
def FlashBuilder.insertSorted : List (Nat × List Nat) → Nat → List Nat → List (Nat × List Nat)
  | [], a, d => [(a, d)]
  | (e, x) :: rest, a, d =>
    if a < e then (a, d) :: (e, x) :: rest else (e, x) :: FlashBuilder.insertSorted rest a d

/-- Nonempty intersection of the half-open intervals `[a, a+n)` and
`[e, e+l)`. -/
def spansOverlap (e l a n : Nat) : Bool :=
  max e a < min (e + l) (a + n)

/-- Modelled from the spec: `FlashBuilder::add_data` (section 4.E): overlap
with any previously added span must fail; otherwise the span is inserted. -/
def FlashBuilder.addSpan (b : FlashBuilder) (address : Nat) (bytes : List Nat) :
    Except FlashError FlashBuilder :=
  if b.data.any (fun ed => spansOverlap ed.1 ed.2.length address bytes.length) then
    .error (.dataOverlaps address)
  else
    .ok ⟨FlashBuilder.insertSorted b.data address bytes⟩

/-- Modelled from the spec: `FlashBuilder::has_data_in_range` (section 4.E):
whether any stored span intersects the queried range. -/
def FlashBuilder.has_data_in_range (b : FlashBuilder) (r : MemRange) : Bool :=
  b.data.any (fun ed => spansOverlap ed.1 ed.2.length r.start (r.stop - r.start))

/-- Modelled from the spec: `FlashBuilder::data_in_range`; per spec section
4.F step 6 the RAM pass writes every span whose address range lies within the
region range. -/
def FlashBuilder.data_in_range (b : FlashBuilder) (r : MemRange) : List (Nat × List Nat) :=
  b.data.filter (fun ed => r.start ≤ ed.1 && ed.1 + ed.2.length ≤ r.stop)

/-- `FlashLoader`: the memory-map snapshot, the builder, and the
description-source tag. -/
structure FlashLoader where
  memory_map : List MemoryRegion
  builder : FlashBuilder
  source : TargetDescriptionSource
  deriving DecidableEq, Repr

/-- `FlashLoader::get_region_for_address`: linear search for the first
region whose range contains the address. -/
def get_region_for_address : List MemoryRegion → Nat → Option MemoryRegion
  | [], _ => none
  | region :: rest, address =>
    if region.range.containsAddr address then some region
    else get_region_for_address rest address

theorem get_region_for_address_contains {map : List MemoryRegion} {a : Nat}
    {r : MemoryRegion} (h : get_region_for_address map a = some r) :
    r.range.containsAddr a = true := by
  induction map with
  | nil => simp [get_region_for_address] at h
  | cons hd tl ih =>
    by_cases hc : hd.range.containsAddr a
    · simp [get_region_for_address, hc] at h
      subst h; exact hc
    · simp [get_region_for_address, hc] at h
      exact ih h

theorem get_region_for_address_mem {map : List MemoryRegion} {a : Nat}
    {r : MemoryRegion} (h : get_region_for_address map a = some r) :
    r ∈ map := by
  induction map with
  | nil => simp [get_region_for_address] at h
  | cons hd tl ih =>
    by_cases hc : hd.range.containsAddr a
    · simp [get_region_for_address, hc] at h
      simp [h]
    · simp [get_region_for_address, hc] at h
      exact List.mem_cons_of_mem _ (ih h)

/-- The loop body of `FlashLoader::check_data_in_memory_map`: walk from
`address` forward; each step looks up the containing region and, when it is
NVM or RAM, jumps to the region end; anything else yields `NoSuitableNvm`
carrying the original query range. -/
def checkLoop (map : List MemoryRegion) (source : TargetDescriptionSource)
    (rstart rstop : Nat) (address : Nat) : Except FlashError Unit :=
  if h : address < rstop then
    match hr : get_region_for_address map address with
    | some (.nvm region) => checkLoop map source rstart rstop region.range.stop
    | some (.ram region) => checkLoop map source rstart rstop region.range.stop
    | some (.generic _) => .error (.noSuitableNvm rstart rstop source)
    | none => .error (.noSuitableNvm rstart rstop source)
  else
    .ok ()
termination_by rstop - address
decreasing_by
  · have hc := get_region_for_address_contains hr
    simp [MemRange.containsAddr, MemoryRegion.range] at hc
    omega
  · have hc := get_region_for_address_contains hr
    simp [MemRange.containsAddr, MemoryRegion.range] at hc
    omega

/-- `FlashLoader::check_data_in_memory_map`. -/
def check_data_in_memory_map (loader : FlashLoader) (range : MemRange) :
    Except FlashError Unit :=
  checkLoop loader.memory_map loader.source range.start range.stop range.start

/-- `FlashLoader::add_data`: validate coverage of
`address..address + data.len() as u64`, then stage the span in the builder.
The range end is computed in u64, so it wraps modulo `2 ^ 64` when
`address + data.len()` exceeds the type (release-mode semantics; the
debug-mode overflow panic is not modelled). Returns the updated loader (the
Rust code mutates `self`). -/
def add_data (loader : FlashLoader) (address : Nat) (data : List Nat) :
    Except FlashError FlashLoader := do
  check_data_in_memory_map loader ⟨address, (address + data.length) % 2 ^ 64⟩
  let b ← loader.builder.addSpan address data
  .ok { loader with builder := b }

/-- `FlashLoader::get_flash_algorithm_for_region`: filter the target
algorithms whose address range contains the region range, then resolve by
count and by the `default` flag. -/
def get_flash_algorithm_for_region (region : NvmRegion) (target : Target) :
    Except FlashError RawFlashAlgorithm :=
  let algorithms := target.flash_algorithms.filter
    (fun fa => fa.flash_properties.address_range.containsRange region.range)
  match algorithms with
  | [] => .error (.noFlashLoaderAlgorithmAttached target.name)
  | [single] => .ok single
  | _ :: _ :: _ =>
    let defaults := algorithms.filter (fun fa => fa.default)
    match defaults with
    | [] => .error (.multipleFlashLoaderAlgorithmsNoDefault region)
    | [single] => .ok single
    | _ :: _ :: _ => .error (.multipleDefaultFlashLoaderAlgorithms region)

/-- Modelled from the spec: `Target::flash_algorithm_by_name` is not under
`src/`; spec section 4.F step 5a: look up the algorithm by name. -/
def flash_algorithm_by_name (target : Target) (name : String) : Option RawFlashAlgorithm :=
  target.flash_algorithms.find? (fun a => a.name == name)

/-- The core-index search `target.cores.iter().position(|c| c.name == core_name)`
inlined in `commit` (also `Target::core_index_by_name` used by the RAM pass). -/
def core_index_by_name (target : Target) (name : String) : Option Nat :=
  target.cores.findIdx? (fun c => c.name == name)

/-- Modelled from the spec: `Target::get_memory_region_by_address` is not
under `src/`; the verify pass resolves the region containing an address. -/
def get_memory_region_by_address (target : Target) (address : Nat) : Option MemoryRegion :=
  get_region_for_address target.memory_map address

/-- The `cores` list of any region variant, as matched by the verify pass. -/
def MemoryRegion.cores : MemoryRegion → List String
  | .nvm r => r.cores
  | .ram r => r.cores
  | .generic r => r.cores

/-- `DownloadOptions`, restricted to the fields `commit` reads. -/
structure DownloadOptions where
  dry_run : Bool
  do_chip_erase : Bool
  keep_unwritten_bytes : Bool
  disable_double_buffering : Bool
  skip_erase : Bool
  verify : Bool

/-- The external `Flasher` and core, as an oracle: the support queries are
functions of the `(algorithm name, core name)` pair the flasher was built
from, `run_erase_all` and `program` succeed, and `read_back` gives the bytes
the verify pass reads. -/
structure FlasherEnv where
  chipEraseSupported : String → String → Bool
  doubleBufferingSupported : String → String → Bool
  readBack : Nat → Nat → List Nat

/-- Calls `commit` issues into the external flasher for one group. -/
inductive FlashEvent where
  | eraseAll
  | program (region : NvmRegion) (keep_unwritten double_buffering skip_erase : Bool)
  deriving DecidableEq, Repr

/-- 8-bit RAM writes issued by the RAM pass of `commit`. -/
inductive RamEvent where
  | write8 (address : Nat) (data : List Nat)
  deriving DecidableEq, Repr

/-- Append a region under its `(algorithm name, core name)` key:
`algos.entry(key).or_default().push(region)`. The `HashMap` is modelled as
an association list in first-insertion order. -/
def entryPush (acc : List ((String × String) × List NvmRegion))
    (key : String × String) (region : NvmRegion) :
    List ((String × String) × List NvmRegion) :=
  match acc with
  | [] => [(key, [region])]
  | (k, rs) :: rest =>
    if k = key then (k, rs ++ [region]) :: rest
    else (k, rs) :: entryPush rest key region

/-- The grouping loop of `commit`: iterate the loader snapshot in declaration
order; for every NVM region holding staged data, resolve the algorithm and
the first core name (`NoNvmCoreAccess` when the core list is empty) and file
the region under that `(algorithm, core)` key. -/
def groupLoop (builder : FlashBuilder) (target : Target)
    (acc : List ((String × String) × List NvmRegion)) :
    List MemoryRegion → Except FlashError (List ((String × String) × List NvmRegion))
  | [] => .ok acc
  | .nvm region :: rest =>
    if !builder.has_data_in_range region.range then
      groupLoop builder target acc rest
    else
      match get_flash_algorithm_for_region region target with
      | .error e => .error e
      | .ok algo =>
        match region.cores.head? with
        | none => .error (.noNvmCoreAccess region)
        | some core_name =>
          groupLoop builder target (entryPush acc (algo.name, core_name) region) rest
  | _ :: rest => groupLoop builder target acc rest

/-- The whole grouping pass of `commit`. -/
def groupRegions (loader : FlashLoader) (target : Target) :
    Except FlashError (List ((String × String) × List NvmRegion)) :=
  groupLoop loader.builder target [] loader.memory_map

/-- The per-group body of the NVM loop of `commit`: unwrap the algorithm and
the core index (`none` = panic), downgrade chip erase when unsupported,
erase once when effective, then program every region of the group.
The returned list is the sequence of flasher calls the group causes. -/
def commitGroup (target : Target) (fl : FlasherEnv) (options : DownloadOptions)
    (algo_name core_name : String) (regions : List NvmRegion) :
    Option (List FlashEvent) :=
  match flash_algorithm_by_name target algo_name with
  | none => none
  | some _algo =>
    match target.cores.findIdx? (fun c => c.name == core_name) with
    | none => none
    | some _core =>
      let do_chip_erase := options.do_chip_erase
      let do_chip_erase :=
        if do_chip_erase && !fl.chipEraseSupported algo_name core_name then false
        else do_chip_erase
      let eraseEvents := if do_chip_erase then [FlashEvent.eraseAll] else []
      let do_use_double_buffering := fl.doubleBufferingSupported algo_name core_name
      let do_use_double_buffering :=
        if do_use_double_buffering && options.disable_double_buffering then false
        else do_use_double_buffering
      some (eraseEvents ++ regions.map (fun region =>
        FlashEvent.program region options.keep_unwritten_bytes do_use_double_buffering
          (options.skip_erase || do_chip_erase)))

/-- The NVM loop of `commit`: run `commitGroup` on every group, keeping the
per-group traces; `none` when any group panicked. -/
def commitNvmGroups (target : Target) (fl : FlasherEnv) (options : DownloadOptions) :
    List ((String × String) × List NvmRegion) →
    Option (List ((String × String) × List FlashEvent))
  | [] => some []
  | (key, regions) :: rest =>
    match commitGroup target fl options key.1 key.2 regions with
    | none => none
    | some tr =>
      match commitNvmGroups target fl options rest with
      | none => none
      | some more => some ((key, tr) :: more)

/-- The RAM pass of `commit`: for every RAM region, resolve the first core
(`NoRamCoreAccess` on an empty list, panic when the name is not declared),
then 8-bit-write every staged span lying within the region. -/
def commitRamLoop (builder : FlashBuilder) (target : Target) :
    List MemoryRegion → Option (Except FlashError (List RamEvent))
  | [] => some (.ok [])
  | .ram region :: rest =>
    (match region.cores.head? with
    | none => some (.error (.noRamCoreAccess region))
    | some core_name =>
      match core_index_by_name target core_name with
      | none => none
      | some _idx =>
        let events := (builder.data_in_range region.range).map
          (fun ad => RamEvent.write8 ad.1 ad.2)
        match commitRamLoop builder target rest with
        | none => none
        | some (.error e) => some (.error e)
        | some (.ok more) => some (.ok (events ++ more)))
  | _ :: rest => commitRamLoop builder target rest

/-- The verify pass of `commit`: resolve the region and first core of every
staged span (each `unwrap` a potential panic), read the bytes back and
compare. -/
def verifyLoop (fl : FlasherEnv) (target : Target) :
    List (Nat × List Nat) → Option (Except FlashError Unit)
  | [] => some (.ok ())
  | (address, data) :: rest =>
    match get_memory_region_by_address target address with
    | none => none
    | some region =>
      match region.cores.head? with
      | none => none
      | some core_name =>
        match core_index_by_name target core_name with
        | none => none
        | some _idx =>
          let written_data := fl.readBack address data.length
          if data ≠ written_data then some (.error .verifyFailed)
          else verifyLoop fl target rest

/-- `FlashLoader::commit`. The outer `Option` is the panic layer; the value
carries the per-group flasher traces and the RAM writes. The memory-map
comparison against the target only logs a warning in the source and has no
further effect, so it does not appear here. -/
def commit (loader : FlashLoader) (target : Target) (fl : FlasherEnv)
    (options : DownloadOptions) :
    Option (Except FlashError
      (List ((String × String) × List FlashEvent) × List RamEvent)) :=
  match groupRegions loader target with
  | .error e => some (.error e)
  | .ok groups =>
    if options.dry_run then some (.ok ([], []))
    else
      match commitNvmGroups target fl options groups with
      | none => none
      | some groupTraces =>
        match commitRamLoop loader.builder target loader.memory_map with
        | none => none
        | some (.error e) => some (.error e)
        | some (.ok ramEvents) =>
          if options.verify then
            match verifyLoop fl target loader.builder.data with
            | none => none
            | some (.error e) => some (.error e)
            | some (.ok ()) => some (.ok (groupTraces, ramEvents))
          else some (.ok (groupTraces, ramEvents))

/-! Embedding of `src/probe-rs/src/architecture/arm/sequences/nxp.rs`. -/

/-- The DP `CTRL/STAT` register at the granularity of the accessors the
sequences call. `Ctrl(0)` is the structure with all defaults. -/
structure Ctrl where
  csyspwrupack : Bool := false
  cdbgpwrupack : Bool := false
  csyspwrupreq : Bool := false
  cdbgpwrupreq : Bool := false
  mask_lane : Nat := 0
  deriving DecidableEq, Repr

/-- The DP `ABORT` register at accessor granularity (the `DAPABORT` bit is
never touched by the modelled code). -/
structure Abort where
  orunerrclr : Bool := false
  wderrclr : Bool := false
  stkerrclr : Bool := false
  stkcmpclr : Bool := false
  deriving DecidableEq, Repr

/-- `DEMCR` at accessor granularity; `rest` stands for the remaining bits,
which the sequences read, keep and write back unchanged. -/
structure Demcr where
  vc_corereset : Bool := false
  trcena : Bool := false
  rest : Nat := 0
  deriving DecidableEq, Repr

/-- `DHCSR` at the granularity the MIMXRT10xx poll reads. -/
structure Dhcsr where
  s_reset_st : Bool
  deriving DecidableEq, Repr

/-- `ArmError`, restricted to the variants the sequences produce or match
on; `accessPortRegisterRead` / `accessPortRegisterWrite` stand for
`ArmError::AccessPort` with source `RegisterRead { .. }` / `RegisterWrite { .. }`. -/
inductive ArmError where
  | timeout
  | accessPortRegisterRead
  | accessPortRegisterWrite
  | accessPortOther
  | debugPort
  | otherErr
  deriving DecidableEq, Repr

/-- Probe transactions recorded by the DP-level sequences. -/
inductive ArmEvent where
  | writeSelect (v : Nat)
  | writeCtrl (c : Ctrl)
  | writeAbort (a : Abort)
  | readRawAp (ap offset : Nat)
  | writeRawAp (ap offset value : Nat)
  | readIdr (ap : Nat)
  | readDpidr
  deriving DecidableEq, Repr

/-- Environment of the shared `debug_port_start`: the first `CTRL/STAT`
read, and the `CTRL/STAT` reads that complete inside the one-second poll
window (`Duration::from_micros(100_0000)`); an exhausted list is the
deadline expiring. -/
structure DpStartEnv where
  firstCtrl : Ctrl
  pollCtrls : List Ctrl

/-- The ack-poll loop of the shared `debug_port_start`: scan the reads of
the window for one showing both power-up acks. -/
def pollForAcks : List Ctrl → Bool
  | [] => false
  | c :: rest => if c.csyspwrupack && c.cdbgpwrupack then true else pollForAcks rest

/-- The shared (file-level) `debug_port_start` routine of `nxp.rs`: write
`SELECT`, read `CTRL/STAT`; when already powered return `false`; otherwise
request power-up, poll for the acks (timeout 1 s), re-write `CTRL/STAT`
with the requests plus `MASK_LANE = 0b1111`, clear the four sticky errors
via `ABORT`, and return `true`. The result carries the DP writes issued on
the successful path. -/
def debug_port_start (env : DpStartEnv) (select : Nat) :
    Except ArmError (Bool × List ArmEvent) :=
  let events : List ArmEvent := [.writeSelect select]
  let ctrl := env.firstCtrl
  let powered_down := !(ctrl.csyspwrupack && ctrl.cdbgpwrupack)
  if powered_down then
    let reqCtrl : Ctrl := { cdbgpwrupreq := true, csyspwrupreq := true }
    if pollForAcks env.pollCtrls then
      let maskCtrl : Ctrl :=
        { cdbgpwrupreq := true, csyspwrupreq := true, mask_lane := 0b1111 }
      let abort : Abort :=
        { orunerrclr := true, wderrclr := true, stkerrclr := true, stkcmpclr := true }
      .ok (true, events ++ [.writeCtrl reqCtrl, .writeCtrl maskCtrl, .writeAbort abort])
    else
      .error ArmError.timeout
  else
    .ok (false, events)

/-- Memory transactions recorded by the `ArmProbe`-level sequences
(`write_word_32` and `flush`; reads are supplied by the environment). -/
inductive ProbeEvent where
  | writeWord (address value : Nat)
  | writeDemcr (d : Demcr)
  | flushEv
  deriving DecidableEq, Repr

/-- Environment of `LPC55Sxx::reset_catch_set`: the first `DEMCR` read, the
reads of the flash-controller status register `0x4003_4FE0` completing
inside the 100 ms poll window (`Duration::from_micros(10_0000)`), the
status re-read after the poll, the word read from `0x0000_0004`, and the
second `DEMCR` read of the fallback branch. -/
structure Lpc55CatchEnv where
  demcr0 : Demcr
  statusPolls : List Nat
  status2 : Nat
  word4 : Nat
  demcr1 : Demcr

/-- The `DEMCR` clear and flash-controller priming writes issued at the top
of `LPC55Sxx::reset_catch_set` (STARTA, STOPA, DATAW0..7, INT_CLR_STATUS,
CMD, flush). -/
def lpc55PrimeEvents (env : Lpc55CatchEnv) : List ProbeEvent :=
  [.writeDemcr { env.demcr0 with vc_corereset := false },
   .writeWord 0x40034010 0x00000000, .writeWord 0x40034014 0x00000000,
   .writeWord 0x40034080 0x00000000, .writeWord 0x40034084 0x00000000,
   .writeWord 0x40034088 0x00000000, .writeWord 0x4003408C 0x00000000,
   .writeWord 0x40034090 0x00000000, .writeWord 0x40034094 0x00000000,
   .writeWord 0x40034098 0x00000000, .writeWord 0x4003409C 0x00000000,
   .writeWord 0x40034FE8 0x0000000F, .writeWord 0x40034000 0x00000003,
   .flushEv]

/-- `LPC55Sxx::reset_catch_set`: clear `VC_CORERESET`, prime the flash
controller to read the reset vector at `0x0000_0004`, poll the status
register for the done bit (timeout 100 ms), read the vector when the status
shows no error, then either program FPB comparator 0 (vector valid) or set
`DEMCR.VC_CORERESET` (vector `0xFFFF_FFFF`). The result carries the writes
and flushes issued. -/
def LPC55Sxx_reset_catch_set (env : Lpc55CatchEnv) : Except ArmError (List ProbeEvent) :=
  let reset_vector0 : Nat := 0xffffffff
  let prime : List ProbeEvent := lpc55PrimeEvents env
  if env.statusPolls.any (fun value => value &&& 0x4 == 0x4) then
    let reset_vector := if env.status2 &&& 0xB == 0 then env.word4 else reset_vector0
    let fpbEvents :=
      if reset_vector ≠ 0xffffffff then
        [ProbeEvent.writeWord 0xE0002008 (reset_vector ||| 1),
         ProbeEvent.writeWord 0xE0002000 3]
      else []
    let fallbackEvents :=
      if reset_vector = 0xffffffff then
        [ProbeEvent.writeDemcr { env.demcr1 with vc_corereset := true }]
      else []
    .ok (prime ++ fpbEvents ++ fallbackEvents)
  else
    .error ArmError.timeout

/-- The `DHCSR` poll of `MIMXRT10xx::reset_system`: the list holds the read
outcomes completing inside the 500 ms window. A read failing with an
AP register read or write error continues the poll; any other error is
returned; a value with `S_RESET_ST` clear is success; an exhausted window
is `Timeout`. -/
def rt10xxPollLoop : List (Except ArmError Dhcsr) → Except ArmError Unit
  | [] => .error ArmError.timeout
  | outcome :: rest =>
    match outcome with
    | .ok dhcsr => if !dhcsr.s_reset_st then .ok () else rt10xxPollLoop rest
    | .error ArmError.accessPortRegisterRead => rt10xxPollLoop rest
    | .error ArmError.accessPortRegisterWrite => rt10xxPollLoop rest
    | .error e => .error e

/-- `MIMXRT10xx::reset_system`: the `AIRCR.SYSRESETREQ` write and the flush
have their errors discarded (`.ok()`), and the 100 ms sleep has no
observable effect, so the returned outcome is exactly the outcome of the
`S_RESET_ST` poll. -/
def MIMXRT10xx_reset_system (reads : List (Except ArmError Dhcsr)) :
    Except ArmError Unit :=
  rt10xxPollLoop reads

/-- Environment of `MIMXRT6xx::debug_port_start`: the shared power-up
environment plus the raw `CSW` value (offset `0x00`) each AP returns. -/
structure Rt6xxEnv where
  dpStart : DpStartEnv
  cswOfAp : Nat → Nat

/-- `MIMXRT6xx::csw_debug_status`: read the raw `CSW` of the given AP and
test bit 6 (`0x40`). -/
def MIMXRT6xx_csw_debug_status (env : Rt6xxEnv) (ap : Nat) : Bool × List ArmEvent :=
  (env.cswOfAp ap &&& 0x40 != 0, [.readRawAp ap 0x00])

/-- `MIMXRT6xx::enable_debug_mailbox`: read `CSW` of the AP handed in as the
memory AP; when its `DbgStatus` bit is clear, run the mailbox activation on
AP 2 (IDR and DPIDR reads, `0x0 <- 0x21`, handshake read, `0x4 <- 0x7`,
handshake read); otherwise do nothing further. -/
def MIMXRT6xx_enable_debug_mailbox (env : Rt6xxEnv) (mem_ap : Nat) : List ArmEvent :=
  let status := MIMXRT6xx_csw_debug_status env mem_ap
  if !status.1 then
    status.2 ++
      [.readIdr 2, .readDpidr,
       .writeRawAp 2 0x0 0x00000021, .readRawAp 2 0,
       .writeRawAp 2 0x4 0x00000007, .readRawAp 2 0]
  else
    status.2

/-- `MIMXRT6xx::debug_port_start`: clear the sticky DP errors, run the
shared `debug_port_start` with `SELECT = 0`, then call
`enable_debug_mailbox` with `MemoryAp::new(ApAddress { dp, ap: 2 })`, i.e.
AP index 2, as the memory AP. -/
def MIMXRT6xx_debug_port_start (env : Rt6xxEnv) : Except ArmError (List ArmEvent) :=
  let clearEvents : List ArmEvent :=
    [.writeAbort { orunerrclr := true, wderrclr := true,
                   stkerrclr := true, stkcmpclr := true }]
  match debug_port_start env.dpStart 0 with
  | .error e => .error e
  | .ok started =>
    .ok (clearEvents ++ started.2 ++ MIMXRT6xx_enable_debug_mailbox env 2)

/-- The `nRESET` pin mask `Pins(0x80)`. -/
def nResetMask : Nat := 0x80

/-- The polling loop of `MIMXRT6xx::reset_hardware_deassert` (the
readback-supported branch), with fuel. Iteration `i` reads the pins
(`readings i`); `i < deadline` is `!timeout_occured()`, i.e. less than one
second has elapsed. The loop keeps running while the pins read low OR the
deadline has not yet passed; `some i` is the iteration at which it exits,
`none` means the fuel ran out with the loop still running. -/
def deassertLoop (readings : Nat → Nat) (deadline : Nat) :
    Nat → Nat → Option Nat
  | 0, _ => none
  | fuel + 1, i =>
    if readings i &&& nResetMask = 0 ∨ i < deadline then
      deassertLoop readings deadline fuel (i + 1)
    else
      some i

/-- Environment of `MIMXRT6xx::reset_hardware_deassert`: the probing
`swj_pins(0, nRESET, 0)` result, the successive `assert_n_reset()` pin
readings, and the iteration index from which `timeout_occured()` holds. -/
structure DeassertEnv where
  probeReading : Nat
  readings : Nat → Nat
  deadline : Nat

/-- `MIMXRT6xx::reset_hardware_deassert`: when pin readback is supported
(probe read differs from `0xFFFF_FFFF`) run the polling loop, otherwise
blind-assert and sleep. `none` means the fuel ran out inside the loop. -/
def MIMXRT6xx_reset_hardware_deassert (env : DeassertEnv) (fuel : Nat) : Option Unit :=
  let can_read_pins := env.probeReading != 0xffffffff
  if can_read_pins then
    match deassertLoop env.readings env.deadline fuel 0 with
    | none => none
    | some _ => some ()
  else
    some ()

/-- C2 witness target: two algorithms both containing the region, one default. -/
def algA : RawFlashAlgorithm :=
  { name := "A", default := false, flash_properties := ⟨⟨0, 0x20⟩⟩ }

/-- Second witness algorithm, the default one. -/
def algB : RawFlashAlgorithm :=
  { name := "B", default := true, flash_properties := ⟨⟨0, 0x40⟩⟩ }

/-- Witness region contained in both algorithm ranges. -/
def regionAB : NvmRegion := { range := ⟨0, 0x10⟩, cores := ["main"] }

/-- Witness target holding both algorithms. -/
def targetAB : Target :=
  { name := "demo", cores := [⟨"main"⟩], flash_algorithms := [algA, algB],
    memory_map := [] }

/-- Whether a region is an NVM or RAM region (the only kinds the coverage
walk accepts). -/
def MemoryRegion.isNvmOrRam : MemoryRegion → Bool
  | .nvm _ => true
  | .ram _ => true
  | .generic _ => false

/-- The coverage property as the spec words it (section 4.D): the interval
`[a, stop)` is covered by a chain of declared NVM or RAM regions, walking
from `a` and jumping at each step to the end of the region containing the
current address. -/
inductive ChainCovered (map : List MemoryRegion) : Nat → Nat → Prop where
  | done {a stop : Nat} : stop ≤ a → ChainCovered map a stop
  | stepNvm {a stop : Nat} (region : NvmRegion) :
      a < stop → get_region_for_address map a = some (.nvm region) →
      ChainCovered map region.range.stop stop → ChainCovered map a stop
  | stepRam {a stop : Nat} (region : RamRegion) :
      a < stop → get_region_for_address map a = some (.ram region) →
      ChainCovered map region.range.stop stop → ChainCovered map a stop

/-- Boundary-check loader: a single NVM region `0x0800_0000 .. 0x0800_4000`
and an empty builder. -/
def demoLoader : FlashLoader :=
  { memory_map := [.nvm { range := ⟨0x08000000, 0x08004000⟩, cores := ["main"] }],
    builder := ⟨[]⟩,
    source := .builtIn }

/-- A poll read the MIMXRT10xx loop tolerates without returning: an AP
register read error, an AP register write error, or a `DHCSR` value still
showing `S_RESET_ST`. -/
def toleratedRead (r : Except ArmError Dhcsr) : Prop :=
  r = .error .accessPortRegisterRead ∨ r = .error .accessPortRegisterWrite ∨
    ∃ d, r = .ok d ∧ d.s_reset_st = true

/-- C6 environment A: AP 0 reports `DbgStatus` SET (`CSW = 0x40`) while
AP 2 reports it clear; the DP is already powered. -/
def rt6xxEnvA : Rt6xxEnv :=
  { dpStart := { firstCtrl := { csyspwrupack := true, cdbgpwrupack := true },
                 pollCtrls := [] },
    cswOfAp := fun ap => if ap = 0 then 0x40 else 0 }

/-- C6 environment B: AP 0 reports `DbgStatus` clear while AP 2 reports it
set. -/
def rt6xxEnvB : Rt6xxEnv :=
  { dpStart := { firstCtrl := { csyspwrupack := true, cdbgpwrupack := true },
                 pollCtrls := [] },
    cswOfAp := fun ap => if ap = 0 then 0 else 0x40 }

/-- AP-addressed read events (raw `CSW`-offset reads and `IDR` reads) of a
trace, kept in order. -/
def apReadEvents (ap : Nat) (evs : List ArmEvent) : List ArmEvent :=
  evs.filter (fun ev => match ev with
    | .readRawAp a _ => a == ap
    | .readIdr a => a == ap
    | _ => false)

/-- AP-addressed raw write events of a trace, kept in order. -/
def apWriteEvents (ap : Nat) (evs : List ArmEvent) : List ArmEvent :=
  evs.filter (fun ev => match ev with
    | .writeRawAp a _ _ => a == ap
    | _ => false)

/-- C8 witness environment: status poll succeeds, status shows no error,
the flash word is a valid vector `0x100`. -/
def lpcEnvGood : Lpc55CatchEnv :=
  { demcr0 := { vc_corereset := true, trcena := false, rest := 5 },
    statusPolls := [0x4],
    status2 := 0,
    word4 := 0x100,
    demcr1 := {} }

/-- C1 witness options: chip erase requested, everything else off. -/
def optsCE : DownloadOptions :=
  { dry_run := false, do_chip_erase := true, keep_unwritten_bytes := false,
    disable_double_buffering := false, skip_erase := false, verify := false }

/-- C1 witness flasher: chip erase unsupported. -/
def flNoCE : FlasherEnv :=
  { chipEraseSupported := fun _ _ => false,
    doubleBufferingSupported := fun _ _ => false,
    readBack := fun _ _ => [] }

/-- C9 counterexample loader: one NVM region naming the undeclared core
`ghost`, with no staged data. -/
def c9Loader : FlashLoader :=
  { memory_map := [.nvm { range := ⟨0, 0x100⟩, cores := ["ghost"] }],
    builder := ⟨[]⟩,
    source := .builtIn }

/-- C9 witness loader: the same undeclared core, now with staged data so
the group is formed and the core lookup panics. -/
def c9LoaderData : FlashLoader :=
  { memory_map := [.nvm { range := ⟨0, 0x10⟩, cores := ["ghost"] }],
    builder := ⟨[(0, [1])]⟩,
    source := .builtIn }

/-! Theorems. -/

/-- C2: `get_flash_algorithm_for_region` first keeps exactly the algorithms
whose address range fully contains the region range; with 0 candidates it
returns `NoFlashLoaderAlgorithmAttached`, with exactly 1 that candidate;
with 2 or more it keeps the defaults and returns
`MultipleFlashLoaderAlgorithmsNoDefault` when none,
the unique default when exactly one, and
`MultipleDefaultFlashLoaderAlgorithms` when several. -/
theorem get_flash_algorithm_for_region_cases (region : NvmRegion) (target : Target) :
    (target.flash_algorithms.filter
        (fun fa => fa.flash_properties.address_range.containsRange region.range) = [] →
      get_flash_algorithm_for_region region target =
        .error (.noFlashLoaderAlgorithmAttached target.name)) ∧
    (∀ a, target.flash_algorithms.filter
        (fun fa => fa.flash_properties.address_range.containsRange region.range) = [a] →
      get_flash_algorithm_for_region region target = .ok a) ∧
    (2 ≤ (target.flash_algorithms.filter
        (fun fa => fa.flash_properties.address_range.containsRange region.range)).length →
      ((target.flash_algorithms.filter
          (fun fa => fa.flash_properties.address_range.containsRange region.range)).filter
          (fun fa => fa.default) = [] →
        get_flash_algorithm_for_region region target =
          .error (.multipleFlashLoaderAlgorithmsNoDefault region)) ∧
      (∀ d, (target.flash_algorithms.filter
          (fun fa => fa.flash_properties.address_range.containsRange region.range)).filter
          (fun fa => fa.default) = [d] →
        get_flash_algorithm_for_region region target = .ok d) ∧
      (2 ≤ ((target.flash_algorithms.filter
          (fun fa => fa.flash_properties.address_range.containsRange region.range)).filter
          (fun fa => fa.default)).length →
        get_flash_algorithm_for_region region target =
          .error (.multipleDefaultFlashLoaderAlgorithms region))) := by
  refine ⟨?_, ?_, ?_⟩
  · intro h
    simp [get_flash_algorithm_for_region, h]
  · intro a h
    simp [get_flash_algorithm_for_region, h]
  · intro hlen
    rcases hc : target.flash_algorithms.filter
        (fun fa => fa.flash_properties.address_range.containsRange region.range) with
      _ | ⟨a, _ | ⟨b, rest⟩⟩
    · simp [hc] at hlen
    · simp [hc] at hlen
    · refine ⟨?_, ?_, ?_⟩
      · intro hd
        rw [hc] at hd
        simp only [get_flash_algorithm_for_region, hc, hd]
      · intro d hd
        rw [hc] at hd
        simp only [get_flash_algorithm_for_region, hc, hd]
      · intro hd2
        rw [hc] at hd2
        rcases hd : ((a :: b :: rest).filter (fun fa => fa.default)) with
          _ | ⟨x, _ | ⟨y, drest⟩⟩
        · rw [hd] at hd2; simp at hd2
        · rw [hd] at hd2; simp at hd2
        · simp only [get_flash_algorithm_for_region, hc, hd]

/-- C2 witness: in `targetAB` both algorithms contain `regionAB`, only `algB`
is default, and the selector returns `algB`. -/
theorem get_flash_algorithm_for_region_cases_witness :
    2 ≤ (targetAB.flash_algorithms.filter
        (fun fa => fa.flash_properties.address_range.containsRange regionAB.range)).length ∧
    (targetAB.flash_algorithms.filter
        (fun fa => fa.flash_properties.address_range.containsRange regionAB.range)).filter
        (fun fa => fa.default) = [algB] ∧
    get_flash_algorithm_for_region regionAB targetAB = .ok algB :=
  ⟨by decide, by decide,
    ((get_flash_algorithm_for_region_cases regionAB targetAB).2.2 (by decide)).2.1 algB
      (by decide)⟩

/-- Non-dependent unfolding equation for `checkLoop`. -/
theorem checkLoop_eq (map : List MemoryRegion) (source : TargetDescriptionSource)
    (rstart rstop a : Nat) :
    checkLoop map source rstart rstop a =
      if a < rstop then
        match get_region_for_address map a with
        | some (.nvm region) => checkLoop map source rstart rstop region.range.stop
        | some (.ram region) => checkLoop map source rstart rstop region.range.stop
        | some (.generic _) => .error (.noSuitableNvm rstart rstop source)
        | none => .error (.noSuitableNvm rstart rstop source)
      else .ok () := by
  rw [checkLoop]
  by_cases h : a < rstop
  · simp only [dif_pos h, if_pos h]
    split <;> rename_i heq <;> simp [heq]
  · simp only [dif_neg h, if_neg h]

theorem checkLoop_ok_iff (map : List MemoryRegion) (source : TargetDescriptionSource)
    (rstart rstop : Nat) (a : Nat) :
    checkLoop map source rstart rstop a = .ok () ↔ ChainCovered map a rstop := by
  induction a using checkLoop.induct map source rstart rstop with
  | case1 x h region hr ih =>
    rw [checkLoop_eq]
    simp only [if_pos h, hr]
    constructor
    · intro hok
      exact ChainCovered.stepNvm region h hr (ih.mp hok)
    · intro hcov
      cases hcov with
      | done hle => omega
      | stepNvm region2 _ hr2 hcov2 =>
        rw [hr] at hr2
        cases hr2
        exact ih.mpr hcov2
      | stepRam region2 _ hr2 hcov2 => rw [hr] at hr2; cases hr2
  | case2 x h region hr ih =>
    rw [checkLoop_eq]
    simp only [if_pos h, hr]
    constructor
    · intro hok
      exact ChainCovered.stepRam region h hr (ih.mp hok)
    · intro hcov
      cases hcov with
      | done hle => omega
      | stepNvm region2 _ hr2 hcov2 => rw [hr] at hr2; cases hr2
      | stepRam region2 _ hr2 hcov2 =>
        rw [hr] at hr2
        cases hr2
        exact ih.mpr hcov2
  | case3 x h region hr =>
    rw [checkLoop_eq]
    simp only [if_pos h, hr]
    constructor
    · intro hok
      cases hok
    · intro hcov
      cases hcov with
      | done hle => omega
      | stepNvm region2 _ hr2 hcov2 => rw [hr] at hr2; cases hr2
      | stepRam region2 _ hr2 hcov2 => rw [hr] at hr2; cases hr2
  | case4 x h hr =>
    rw [checkLoop_eq]
    simp only [if_pos h, hr]
    constructor
    · intro hok
      cases hok
    · intro hcov
      cases hcov with
      | done hle => omega
      | stepNvm region2 _ hr2 hcov2 => rw [hr] at hr2; cases hr2
      | stepRam region2 _ hr2 hcov2 => rw [hr] at hr2; cases hr2
  | case5 x h =>
    rw [checkLoop_eq]
    simp only [if_neg h]
    constructor
    · intro _
      exact ChainCovered.done (by omega)
    · intro _
      trivial

/-- Every point of a walked-over interval lies inside some declared NVM or
RAM region. -/
theorem checkLoop_ok_pointwise (map : List MemoryRegion)
    (source : TargetDescriptionSource) (rstart rstop : Nat) (a : Nat) :
    checkLoop map source rstart rstop a = .ok () →
    ∀ p, a ≤ p → p < rstop →
      ∃ r ∈ map, r.isNvmOrRam = true ∧ r.range.containsAddr p = true := by
  induction a using checkLoop.induct map source rstart rstop with
  | case1 x h region hr ih =>
    intro hok p hap hp
    rw [checkLoop_eq] at hok
    simp only [if_pos h, hr] at hok
    by_cases hpr : p < region.range.stop
    · refine ⟨.nvm region, get_region_for_address_mem hr, rfl, ?_⟩
      have hc := get_region_for_address_contains hr
      simp only [MemRange.containsAddr, MemoryRegion.range] at hc ⊢
      simp only [Bool.and_eq_true, decide_eq_true_eq] at hc ⊢
      omega
    · exact ih hok p (by omega) hp
  | case2 x h region hr ih =>
    intro hok p hap hp
    rw [checkLoop_eq] at hok
    simp only [if_pos h, hr] at hok
    by_cases hpr : p < region.range.stop
    · refine ⟨.ram region, get_region_for_address_mem hr, rfl, ?_⟩
      have hc := get_region_for_address_contains hr
      simp only [MemRange.containsAddr, MemoryRegion.range] at hc ⊢
      simp only [Bool.and_eq_true, decide_eq_true_eq] at hc ⊢
      omega
    · exact ih hok p (by omega) hp
  | case3 x h region hr =>
    intro hok
    rw [checkLoop_eq] at hok
    simp only [if_pos h, hr] at hok
    simp at hok
  | case4 x h hr =>
    intro hok
    rw [checkLoop_eq] at hok
    simp only [if_pos h, hr] at hok
    simp at hok
  | case5 x h =>
    intro _ p hap hp
    omega

/-- The walk either succeeds or produces exactly the `NoSuitableNvm` error
built from the original query range and the description source. -/
theorem checkLoop_ok_or_noSuitableNvm (map : List MemoryRegion)
    (source : TargetDescriptionSource) (rstart rstop : Nat) (a : Nat) :
    checkLoop map source rstart rstop a = .ok () ∨
    checkLoop map source rstart rstop a =
      .error (.noSuitableNvm rstart rstop source) := by
  induction a using checkLoop.induct map source rstart rstop with
  | case1 x h region hr ih =>
    rw [checkLoop_eq]
    simp only [if_pos h, hr]
    exact ih
  | case2 x h region hr ih =>
    rw [checkLoop_eq]
    simp only [if_pos h, hr]
    exact ih
  | case3 x h region hr =>
    rw [checkLoop_eq]
    simp only [if_pos h, hr]
    right; trivial
  | case4 x h hr =>
    rw [checkLoop_eq]
    simp only [if_pos h, hr]
    right; trivial
  | case5 x h =>
    rw [checkLoop_eq]
    simp only [if_neg h]
    left; trivial

/-- The walk accepts data ending exactly at the region end. -/
theorem demo_check_ok :
    check_data_in_memory_map demoLoader ⟨0x08003FF0, 0x08004000⟩ = .ok () := by
  have hg : get_region_for_address demoLoader.memory_map 0x08003FF0 =
      some (.nvm { range := ⟨0x08000000, 0x08004000⟩, cores := ["main"] }) := by decide
  show checkLoop demoLoader.memory_map .builtIn 0x08003FF0 0x08004000 0x08003FF0 = _
  rw [checkLoop_eq, if_pos (by norm_num), hg]
  show checkLoop demoLoader.memory_map .builtIn 0x08003FF0 0x08004000 0x08004000 = _
  rw [checkLoop_eq, if_neg (by norm_num)]

/-- C3 counterexample: at the top of the address space the u64 range-end
computation of `add_data` wraps (`0xFFFF_FFFF_FFFF_FFFF + 2` becomes `1`),
the walk `while address < range.end` exits immediately, and two bytes at an
address outside every declared region are accepted instead of failing with
`NoSuitableNvm`. -/
theorem add_data_wraparound_accepted :
    add_data demoLoader 0xFFFFFFFFFFFFFFFF [0xAA, 0xAA] =
      .ok { demoLoader with
        builder := ⟨[(0xFFFFFFFFFFFFFFFF, [0xAA, 0xAA])]⟩ } ∧
    (0xFFFFFFFFFFFFFFFF + ([0xAA, 0xAA] : List Nat).length) % 2 ^ 64 = 1 ∧
    get_region_for_address demoLoader.memory_map 0xFFFFFFFFFFFFFFFF = none := by
  refine ⟨?_, by norm_num, by decide⟩
  have hl : (0xFFFFFFFFFFFFFFFF + ([0xAA, 0xAA] : List Nat).length) % 2 ^ 64 =
      1 := by norm_num
  have hchk : check_data_in_memory_map demoLoader ⟨0xFFFFFFFFFFFFFFFF, 1⟩ =
      .ok () := by
    show checkLoop demoLoader.memory_map .builtIn 0xFFFFFFFFFFFFFFFF 1
      0xFFFFFFFFFFFFFFFF = .ok ()
    rw [checkLoop_eq, if_neg (by norm_num)]
  simp only [add_data, hl, hchk]
  rfl

/-- C3 (amended): when the u64 range-end computation does not wrap
(`a + |b| < 2 ^ 64`), `add_data(a, b)` passes the memory-map check exactly
when `[a, a + |b|)` is covered by a chain of declared NVM or RAM regions
walking from `a`; when any point of a checked interval is not inside a
declared NVM or RAM region the check cannot pass, and a failing check
produces exactly `NoSuitableNvm`; data filling an NVM region up to its last
byte is accepted while data extending one byte past the region end fails
with `NoSuitableNvm`; when the end computation wraps the walked interval is
empty and the check passes vacuously. -/
theorem add_data_memory_map_check :
    (∀ (loader : FlashLoader) (address : Nat) (data : List Nat),
      address + data.length < 2 ^ 64 →
      (check_data_in_memory_map loader
          ⟨address, (address + data.length) % 2 ^ 64⟩ = .ok () ↔
        ChainCovered loader.memory_map address (address + data.length))) ∧
    (∀ (loader : FlashLoader) (range : MemRange) (p : Nat),
      check_data_in_memory_map loader range = .ok () →
      range.start ≤ p → p < range.stop →
      ∃ r ∈ loader.memory_map, r.isNvmOrRam = true ∧ r.range.containsAddr p = true) ∧
    (∀ (loader : FlashLoader) (range : MemRange),
      check_data_in_memory_map loader range ≠ .ok () →
      check_data_in_memory_map loader range =
        .error (.noSuitableNvm range.start range.stop loader.source)) ∧
    (∀ (loader : FlashLoader) (address : Nat) (data : List Nat),
      address < 2 ^ 64 → data.length < 2 ^ 64 →
      2 ^ 64 ≤ address + data.length →
      check_data_in_memory_map loader
        ⟨address, (address + data.length) % 2 ^ 64⟩ = .ok ()) ∧
    (∃ l2, add_data demoLoader 0x08003FF0 (List.replicate 16 0xAA) = .ok l2) ∧
    add_data demoLoader 0x08003FF1 (List.replicate 16 0xAA) =
      .error (.noSuitableNvm 0x08003FF1 0x08004001 .builtIn) := by
  refine ⟨?_, ?_, ?_, ?_, ?_, ?_⟩
  · intro loader address data h
    have hm : (address + data.length) % 2 ^ 64 = address + data.length :=
      Nat.mod_eq_of_lt h
    show checkLoop loader.memory_map loader.source address
        ((address + data.length) % 2 ^ 64) address = .ok () ↔
      ChainCovered loader.memory_map address (address + data.length)
    rw [hm]
    exact checkLoop_ok_iff loader.memory_map loader.source address
      (address + data.length) address
  · intro loader range p hok hs he
    exact checkLoop_ok_pointwise loader.memory_map loader.source range.start
      range.stop range.start hok p hs he
  · intro loader range hne
    rcases checkLoop_ok_or_noSuitableNvm loader.memory_map loader.source
      range.start range.stop range.start with h | h
    · exact absurd h hne
    · exact h
  · intro loader address data ha hd hsum
    show checkLoop loader.memory_map loader.source address
      ((address + data.length) % 2 ^ 64) address = .ok ()
    rw [checkLoop_eq, if_neg (by omega)]
  · refine ⟨{ demoLoader with
        builder := ⟨[(0x08003FF0, List.replicate 16 0xAA)]⟩ }, ?_⟩
    have hl : ((0x08003FF0 : Nat) + (List.replicate 16 (0xAA : Nat)).length) %
        2 ^ 64 = 0x08004000 := by norm_num
    simp only [add_data, hl, demo_check_ok]
    rfl
  · have hl : ((0x08003FF1 : Nat) + (List.replicate 16 (0xAA : Nat)).length) %
        2 ^ 64 = 0x08004001 := by norm_num
    have hg1 : get_region_for_address demoLoader.memory_map 0x08003FF1 =
        some (.nvm { range := ⟨0x08000000, 0x08004000⟩, cores := ["main"] }) := by decide
    have hg2 : get_region_for_address demoLoader.memory_map 0x08004000 = none := by decide
    have hchk : check_data_in_memory_map demoLoader ⟨0x08003FF1, 0x08004001⟩ =
        .error (.noSuitableNvm 0x08003FF1 0x08004001 .builtIn) := by
      show checkLoop demoLoader.memory_map .builtIn 0x08003FF1 0x08004001 0x08003FF1 = _
      rw [checkLoop_eq, if_pos (by norm_num), hg1]
      show checkLoop demoLoader.memory_map .builtIn 0x08003FF1 0x08004001 0x08004000 = _
      rw [checkLoop_eq, if_pos (by norm_num), hg2]
    simp only [add_data, hl, hchk]
    rfl

/-- C3 witness: the equivalence and the pointwise consequence applied to the
boundary loader. -/
theorem add_data_memory_map_check_witness :
    ChainCovered demoLoader.memory_map 0x08003FF0 0x08004000 ∧
    ∃ r ∈ demoLoader.memory_map,
      r.isNvmOrRam = true ∧ r.range.containsAddr 0x08003FF5 = true := by
  constructor
  · have h := (add_data_memory_map_check.1 demoLoader 0x08003FF0
      (List.replicate 16 0xAA) (by norm_num)).mp
    have hl : ((0x08003FF0 : Nat) + (List.replicate 16 (0xAA : Nat)).length) %
        2 ^ 64 = 0x08004000 := by norm_num
    have hl2 : (0x08003FF0 : Nat) + (List.replicate 16 (0xAA : Nat)).length =
        0x08004000 := by norm_num
    rw [hl, hl2] at h
    exact h demo_check_ok
  · exact add_data_memory_map_check.2.1 demoLoader ⟨0x08003FF0, 0x08004000⟩
      0x08003FF5 demo_check_ok (by norm_num) (by norm_num)

/-- C10: for every loader and every address, `add_data` with an empty byte
slice passes the memory-map coverage check (the walk over the empty interval
`[a, a)` performs no region lookup, so no `NoSuitableNvm` arises even when
`a` lies outside every declared region) and returns without error. -/
theorem add_data_empty_slice (loader : FlashLoader) (address : Nat) :
    check_data_in_memory_map loader
        ⟨address, (address + ([] : List Nat).length) % 2 ^ 64⟩ = .ok () ∧
    add_data loader address [] =
      .ok { loader with
        builder := ⟨FlashBuilder.insertSorted loader.builder.data address []⟩ } := by
  have h1 : check_data_in_memory_map loader
      ⟨address, (address + ([] : List Nat).length) % 2 ^ 64⟩ = .ok () := by
    show checkLoop loader.memory_map loader.source address
      ((address + 0) % 2 ^ 64) address = .ok ()
    rw [checkLoop_eq, if_neg (by omega)]
  refine ⟨h1, ?_⟩
  have hov : loader.builder.data.any
      (fun ed => spansOverlap ed.1 ed.2.length address ([] : List Nat).length) =
        false := by
    rw [List.any_eq_false]
    intro ed hed
    simp only [spansOverlap, List.length_nil, Nat.add_zero, decide_eq_true_eq]
    omega
  simp only [add_data, h1, FlashBuilder.addSpan, hov]
  rfl

theorem pollForAcks_eq_true_iff (l : List Ctrl) :
    pollForAcks l = true ↔
      ∃ c ∈ l, c.csyspwrupack = true ∧ c.cdbgpwrupack = true := by
  induction l with
  | nil => simp [pollForAcks]
  | cons c rest ih =>
    by_cases h : c.csyspwrupack && c.cdbgpwrupack
    · simp only [Bool.and_eq_true] at h
      simp [pollForAcks, h]
    · simp only [Bool.and_eq_true] at h
      have hc : ¬(c.csyspwrupack = true ∧ c.cdbgpwrupack = true) := h
      simp only [pollForAcks, List.mem_cons]
      rw [if_neg (by simpa using h)]
      rw [ih]
      constructor
      · rintro ⟨d, hd, hacks⟩
        exact ⟨d, Or.inr hd, hacks⟩
      · rintro ⟨d, hd | hd, hacks⟩
        · subst hd
          exact absurd hacks hc
        · exact ⟨d, hd, hacks⟩

/-- C4: the shared `debug_port_start` returns `true` exactly when the first
`CTRL/STAT` read does not show both acks; when already powered it returns
`false` after writing only `SELECT`; when powered down it writes the
power-up requests, polls for both acks inside the one-second window
(`Timeout` on expiry), re-writes `CTRL/STAT` with the requests plus
`MASK_LANE = 0b1111`, and writes `ABORT` with the four sticky-error clear
bits before returning `true`. -/
theorem debug_port_start_cases (env : DpStartEnv) (select : Nat) :
    (env.firstCtrl.csyspwrupack = true ∧ env.firstCtrl.cdbgpwrupack = true →
      debug_port_start env select = .ok (false, [.writeSelect select])) ∧
    (¬(env.firstCtrl.csyspwrupack = true ∧ env.firstCtrl.cdbgpwrupack = true) →
      ((∃ c ∈ env.pollCtrls, c.csyspwrupack = true ∧ c.cdbgpwrupack = true) →
        debug_port_start env select = .ok (true,
          [.writeSelect select,
           .writeCtrl { cdbgpwrupreq := true, csyspwrupreq := true },
           .writeCtrl { cdbgpwrupreq := true, csyspwrupreq := true,
                        mask_lane := 0b1111 },
           .writeAbort { orunerrclr := true, wderrclr := true,
                         stkerrclr := true, stkcmpclr := true }])) ∧
      ((∀ c ∈ env.pollCtrls,
          ¬(c.csyspwrupack = true ∧ c.cdbgpwrupack = true)) →
        debug_port_start env select = .error .timeout)) ∧
    (∀ b tr, debug_port_start env select = .ok (b, tr) →
      (b = true ↔
        ¬(env.firstCtrl.csyspwrupack = true ∧ env.firstCtrl.cdbgpwrupack = true))) := by
  refine ⟨?_, ?_, ?_⟩
  · intro hacks
    simp [debug_port_start, hacks.1, hacks.2]
  · intro hne
    have hpd : (!(env.firstCtrl.csyspwrupack && env.firstCtrl.cdbgpwrupack)) = true := by
      simp only [Bool.not_eq_true', Bool.and_eq_false_iff]
      rcases Decidable.not_and_iff_or_not.mp hne with h | h
      · exact Or.inl (by simpa using h)
      · exact Or.inr (by simpa using h)
    constructor
    · intro hex
      have hpoll : pollForAcks env.pollCtrls = true :=
        (pollForAcks_eq_true_iff env.pollCtrls).mpr hex
      simp [debug_port_start, hpd, hpoll]
    · intro hall
      have hpoll : pollForAcks env.pollCtrls = false := by
        rcases hb : pollForAcks env.pollCtrls with _ | _
        · rfl
        · rcases (pollForAcks_eq_true_iff env.pollCtrls).mp hb with ⟨c, hc, hacks⟩
          exact absurd hacks (hall c hc)
      simp [debug_port_start, hpd, hpoll]
  · intro b tr hok
    by_cases hacks : env.firstCtrl.csyspwrupack = true ∧ env.firstCtrl.cdbgpwrupack = true
    · simp [debug_port_start, hacks.1, hacks.2] at hok
      simp [hok.1, hacks]
    · have hpd : (!(env.firstCtrl.csyspwrupack && env.firstCtrl.cdbgpwrupack)) = true := by
        simp only [Bool.not_eq_true', Bool.and_eq_false_iff]
        rcases Decidable.not_and_iff_or_not.mp hacks with h | h
        · exact Or.inl (by simpa using h)
        · exact Or.inr (by simpa using h)
      rcases hb : pollForAcks env.pollCtrls with _ | _
      · simp [debug_port_start, hpd, hb] at hok
      · simp [debug_port_start, hpd, hb] at hok
        simp [hok.1, hacks]

/-- C4 witness: a powered-down entry whose first window read shows both
acks; the routine returns `true` with the full write sequence. -/
theorem debug_port_start_cases_witness :
    debug_port_start
      ⟨{}, [{ csyspwrupack := true, cdbgpwrupack := true }]⟩ 5 =
      .ok (true,
        [.writeSelect 5,
         .writeCtrl { cdbgpwrupreq := true, csyspwrupreq := true },
         .writeCtrl { cdbgpwrupreq := true, csyspwrupreq := true,
                      mask_lane := 0b1111 },
         .writeAbort { orunerrclr := true, wderrclr := true,
                       stkerrclr := true, stkcmpclr := true }]) :=
  ((debug_port_start_cases
      ⟨{}, [{ csyspwrupack := true, cdbgpwrupack := true }]⟩ 5).2.1
    (by simp)).1
    ⟨{ csyspwrupack := true, cdbgpwrupack := true }, by simp, rfl, rfl⟩

/-- C5 counterexample: the claim says only AP register READ errors are
non-fatal and any error of a different kind aborts `reset_system` with that
error; but a read failing with an AP register WRITE error (a different
kind) is tolerated too, and the run below returns success instead of
aborting. -/
theorem rt10xx_write_error_not_fatal :
    MIMXRT10xx_reset_system
      [.error .accessPortRegisterWrite, .ok { s_reset_st := false }] = .ok () ∧
    decide (ArmError.accessPortRegisterWrite = ArmError.accessPortRegisterRead) =
      false :=
  ⟨rfl, rfl⟩

/-- C5 (amended): during the 500 ms `S_RESET_ST` poll, reads failing with
AP register read OR write errors are non-fatal and the poll continues; any
error of a different kind aborts `reset_system` with that error; the first
successful read with `S_RESET_ST` clear returns success; an exhausted
window returns `Timeout`. -/
theorem rt10xx_reset_system_poll (reads : List (Except ArmError Dhcsr)) :
    ((∀ r ∈ reads, toleratedRead r) →
      MIMXRT10xx_reset_system reads = .error .timeout) ∧
    (∀ pre d rest, reads = pre ++ .ok d :: rest → d.s_reset_st = false →
      (∀ r ∈ pre, toleratedRead r) →
      MIMXRT10xx_reset_system reads = .ok ()) ∧
    (∀ pre e rest, reads = pre ++ .error e :: rest →
      e ≠ .accessPortRegisterRead → e ≠ .accessPortRegisterWrite →
      (∀ r ∈ pre, toleratedRead r) →
      MIMXRT10xx_reset_system reads = .error e) := by
  refine ⟨?_, ?_, ?_⟩
  · intro hall
    induction reads with
    | nil => rfl
    | cons r rest ih =>
      have hr := hall r (List.mem_cons_self r rest)
      have hrest : ∀ x ∈ rest, toleratedRead x := fun x hx =>
        hall x (List.mem_cons_of_mem r hx)
      rcases hr with h | h | ⟨d, hd, hst⟩
      · subst h
        simpa [MIMXRT10xx_reset_system, rt10xxPollLoop] using ih hrest
      · subst h
        simpa [MIMXRT10xx_reset_system, rt10xxPollLoop] using ih hrest
      · subst hd
        simpa [MIMXRT10xx_reset_system, rt10xxPollLoop, hst] using ih hrest
  · intro pre d rest hsplit hst hpre
    subst hsplit
    induction pre with
    | nil => simp [MIMXRT10xx_reset_system, rt10xxPollLoop, hst]
    | cons r pre2 ih =>
      have hr := hpre r (List.mem_cons_self r pre2)
      have hpre2 : ∀ x ∈ pre2, toleratedRead x := fun x hx =>
        hpre x (List.mem_cons_of_mem r hx)
      rcases hr with h | h | ⟨d2, hd2, hst2⟩
      · subst h
        simpa [MIMXRT10xx_reset_system, rt10xxPollLoop] using ih hpre2
      · subst h
        simpa [MIMXRT10xx_reset_system, rt10xxPollLoop] using ih hpre2
      · subst hd2
        simpa [MIMXRT10xx_reset_system, rt10xxPollLoop, hst2] using ih hpre2
  · intro pre e rest hsplit he1 he2 hpre
    subst hsplit
    induction pre with
    | nil =>
      cases e with
      | timeout => rfl
      | accessPortRegisterRead => exact absurd rfl he1
      | accessPortRegisterWrite => exact absurd rfl he2
      | accessPortOther => rfl
      | debugPort => rfl
      | otherErr => rfl
    | cons r pre2 ih =>
      have hr := hpre r (List.mem_cons_self r pre2)
      have hpre2 : ∀ x ∈ pre2, toleratedRead x := fun x hx =>
        hpre x (List.mem_cons_of_mem r hx)
      rcases hr with h | h | ⟨d2, hd2, hst2⟩
      · subst h
        simpa [MIMXRT10xx_reset_system, rt10xxPollLoop] using ih hpre2
      · subst h
        simpa [MIMXRT10xx_reset_system, rt10xxPollLoop] using ih hpre2
      · subst hd2
        simpa [MIMXRT10xx_reset_system, rt10xxPollLoop, hst2] using ih hpre2

/-- C5 witness: the spec scenario, three AP register read errors followed by
a clear `S_RESET_ST` inside the window, returns success. -/
theorem rt10xx_reset_system_poll_witness :
    MIMXRT10xx_reset_system
      [.error .accessPortRegisterRead, .error .accessPortRegisterRead,
       .error .accessPortRegisterRead, .ok { s_reset_st := false }] = .ok () :=
  (rt10xx_reset_system_poll _).2.1
    [.error .accessPortRegisterRead, .error .accessPortRegisterRead,
     .error .accessPortRegisterRead]
    { s_reset_st := false } [] rfl rfl
    (by
      intro r hr
      simp only [List.mem_cons, List.not_mem_nil, or_false] at hr
      rcases hr with h | h | h <;> subst h <;> exact Or.inl rfl)

/-- C7: the `reset_hardware_deassert` polling loop is not a bounded
one-second wait. Its continuation condition is
`pins low OR deadline not yet passed`, so (a) when `nRESET` always reads
low the loop never exits, for any amount of fuel — the routine never
returns, instead of returning after at most 1 s — and (b) when `nRESET`
reads high from the very first read the loop still spins until the
deadline has passed (exit at iteration `deadline`, not at iteration 0). -/
theorem deassert_loop_unbounded :
    (∀ deadline fuel i, deassertLoop (fun _ => 0) deadline fuel i = none) ∧
    (∀ fuel, MIMXRT6xx_reset_hardware_deassert
      { probeReading := 0, readings := fun _ => 0, deadline := 3 } fuel = none) ∧
    deassertLoop (fun _ => nResetMask) 3 10 0 = some 3 := by
  have hlow : ∀ deadline fuel i, deassertLoop (fun _ => 0) deadline fuel i = none := by
    intro deadline fuel
    induction fuel with
    | zero => intro i; rfl
    | succ n ih =>
      intro i
      rw [deassertLoop]
      rw [if_pos (Or.inl (show 0 &&& nResetMask = 0 by decide))]
      exact ih (i + 1)
  refine ⟨hlow, ?_, by decide⟩
  intro fuel
  rw [MIMXRT6xx_reset_hardware_deassert]
  rw [if_pos (by decide)]
  rw [hlow 3 fuel 0]

/-- C6: the mailbox-activation decision of `MIMXRT6xx::debug_port_start` is
taken on the `CSW` of AP 2 (the AP it wraps as the memory AP), not on the
`CSW` of AP 0: with AP 0 `DbgStatus` set but AP 2 clear the mailbox IS
activated and no AP 0 register is ever read, and with AP 0 clear but AP 2
set the mailbox is NOT activated. -/
theorem rt6xx_mailbox_gated_on_ap2 :
    (rt6xxEnvA.cswOfAp 0 &&& 0x40 = 0x40 ∧
     rt6xxEnvA.cswOfAp 2 &&& 0x40 = 0 ∧
     MIMXRT6xx_debug_port_start rt6xxEnvA = .ok
       [.writeAbort { orunerrclr := true, wderrclr := true,
                      stkerrclr := true, stkcmpclr := true },
        .writeSelect 0,
        .readRawAp 2 0x00, .readIdr 2, .readDpidr,
        .writeRawAp 2 0x0 0x00000021, .readRawAp 2 0,
        .writeRawAp 2 0x4 0x00000007, .readRawAp 2 0] ∧
     apWriteEvents 2
       [.writeAbort { orunerrclr := true, wderrclr := true,
                      stkerrclr := true, stkcmpclr := true },
        .writeSelect 0,
        .readRawAp 2 0x00, .readIdr 2, .readDpidr,
        .writeRawAp 2 0x0 0x00000021, .readRawAp 2 0,
        .writeRawAp 2 0x4 0x00000007, .readRawAp 2 0] =
       [.writeRawAp 2 0x0 0x00000021, .writeRawAp 2 0x4 0x00000007] ∧
     apReadEvents 0
       [.writeAbort { orunerrclr := true, wderrclr := true,
                      stkerrclr := true, stkcmpclr := true },
        .writeSelect 0,
        .readRawAp 2 0x00, .readIdr 2, .readDpidr,
        .writeRawAp 2 0x0 0x00000021, .readRawAp 2 0,
        .writeRawAp 2 0x4 0x00000007, .readRawAp 2 0] = []) ∧
    (rt6xxEnvB.cswOfAp 0 &&& 0x40 = 0 ∧
     rt6xxEnvB.cswOfAp 2 &&& 0x40 = 0x40 ∧
     MIMXRT6xx_debug_port_start rt6xxEnvB = .ok
       [.writeAbort { orunerrclr := true, wderrclr := true,
                      stkerrclr := true, stkcmpclr := true },
        .writeSelect 0,
        .readRawAp 2 0x00] ∧
     apWriteEvents 2
       [.writeAbort { orunerrclr := true, wderrclr := true,
                      stkerrclr := true, stkcmpclr := true },
        .writeSelect 0,
        .readRawAp 2 0x00] = [] ∧
     apReadEvents 0
       [.writeAbort { orunerrclr := true, wderrclr := true,
                      stkerrclr := true, stkcmpclr := true },
        .writeSelect 0,
        .readRawAp 2 0x00] = []) :=
  ⟨⟨by decide, by decide, rfl, rfl, rfl⟩, ⟨by decide, by decide, rfl, rfl, rfl⟩⟩

/-- C8: in `LPC55Sxx::reset_catch_set`, when the flash read yields reset
vector `0xFFFF_FFFF` — the word itself read `0xFFFF_FFFF`, or the status
register reported an error so the read was skipped — `DEMCR.VC_CORERESET`
is written to 1 and the FPB registers `0xE000_2000` / `0xE000_2008` are not
written; for any other vector, FPB comparator 0 gets `vector | 1`,
`0xE000_2000` gets 3, and every `DEMCR` write leaves `VC_CORERESET`
clear. -/
theorem lpc55_reset_catch_set_cases (env : Lpc55CatchEnv)
    (hp : env.statusPolls.any (fun value => value &&& 0x4 == 0x4) = true) :
    (env.status2 &&& 0xB ≠ 0 ∨ env.word4 = 0xffffffff →
      ∃ evs, LPC55Sxx_reset_catch_set env = .ok evs ∧
        ProbeEvent.writeDemcr { env.demcr1 with vc_corereset := true } ∈ evs ∧
        (∀ v, ProbeEvent.writeWord 0xE0002000 v ∉ evs) ∧
        (∀ v, ProbeEvent.writeWord 0xE0002008 v ∉ evs)) ∧
    (env.status2 &&& 0xB = 0 → env.word4 ≠ 0xffffffff →
      ∃ evs, LPC55Sxx_reset_catch_set env = .ok evs ∧
        ProbeEvent.writeWord 0xE0002008 (env.word4 ||| 1) ∈ evs ∧
        ProbeEvent.writeWord 0xE0002000 3 ∈ evs ∧
        (∀ d, ProbeEvent.writeDemcr d ∈ evs → d.vc_corereset = false)) := by
  constructor
  · intro hbad
    have hvec : (if env.status2 &&& 0xB == 0 then env.word4 else 0xffffffff) =
        0xffffffff := by
      rcases hbad with h | h
      · rw [if_neg (by simpa using h)]
      · by_cases h2 : env.status2 &&& 0xB = 0
        · rw [if_pos (by simpa using h2)]
          exact h
        · rw [if_neg (by simpa using h2)]
    have hres : LPC55Sxx_reset_catch_set env = .ok
        (lpc55PrimeEvents env ++ [] ++
          [.writeDemcr { env.demcr1 with vc_corereset := true }]) := by
      rw [LPC55Sxx_reset_catch_set]
      rw [if_pos hp]
      simp only [hvec]
      simp
    refine ⟨_, hres, ?_, ?_, ?_⟩
    · simp
    · intro v
      simp [lpc55PrimeEvents]
    · intro v
      simp [lpc55PrimeEvents]
  · intro hst hvec4
    have hvec : (if env.status2 &&& 0xB == 0 then env.word4 else 0xffffffff) =
        env.word4 := by
      rw [if_pos (by simpa using hst)]
    have hres : LPC55Sxx_reset_catch_set env = .ok
        (lpc55PrimeEvents env ++
          [.writeWord 0xE0002008 (env.word4 ||| 1), .writeWord 0xE0002000 3] ++
          []) := by
      rw [LPC55Sxx_reset_catch_set]
      rw [if_pos hp]
      simp only [hvec]
      simp [hvec4]
    refine ⟨_, hres, ?_, ?_, ?_⟩
    · simp
    · simp
    · intro d hd
      simp [lpc55PrimeEvents] at hd
      rw [hd]

/-- C8 witness: with a valid reset vector the FPB is programmed and every
`DEMCR` write keeps `VC_CORERESET` clear. -/
theorem lpc55_reset_catch_set_cases_witness :
    ∃ evs, LPC55Sxx_reset_catch_set lpcEnvGood = .ok evs ∧
      ProbeEvent.writeWord 0xE0002008 (lpcEnvGood.word4 ||| 1) ∈ evs ∧
      ProbeEvent.writeWord 0xE0002000 3 ∈ evs ∧
      (∀ d, ProbeEvent.writeDemcr d ∈ evs → d.vc_corereset = false) :=
  (lpc55_reset_catch_set_cases lpcEnvGood (by decide)).2 (by decide) (by decide)

/-- The chip-erase downgrade (`if requested && !supported { false }`) equals
the conjunction of request and support. -/
theorem downgrade_eq_and (dce sup : Bool) :
    (if dce && !sup then false else dce) = (dce && sup) := by
  cases dce <;> cases sup <;> rfl

/-- Characterization of a non-panicking `commitGroup` run. -/
theorem commitGroup_eq_some {target : Target} {fl : FlasherEnv}
    {options : DownloadOptions} {algo_name core_name : String}
    {regions : List NvmRegion} {tr : List FlashEvent}
    (h : commitGroup target fl options algo_name core_name regions = some tr) :
    ∃ algo idx, flash_algorithm_by_name target algo_name = some algo ∧
      target.cores.findIdx? (fun c => c.name == core_name) = some idx ∧
      tr = (if options.do_chip_erase && fl.chipEraseSupported algo_name core_name
            then [FlashEvent.eraseAll] else []) ++
        regions.map (fun region =>
          FlashEvent.program region options.keep_unwritten_bytes
            (if fl.doubleBufferingSupported algo_name core_name &&
                options.disable_double_buffering
              then false else fl.doubleBufferingSupported algo_name core_name)
            (options.skip_erase ||
              (options.do_chip_erase && fl.chipEraseSupported algo_name core_name))) := by
  rw [commitGroup] at h
  cases ha : flash_algorithm_by_name target algo_name with
  | none => rw [ha] at h; cases h
  | some algo =>
    rw [ha] at h
    cases hi : target.cores.findIdx? (fun c => c.name == core_name) with
    | none => rw [hi] at h; cases h
    | some idx =>
      rw [hi] at h
      refine ⟨algo, idx, rfl, rfl, ?_⟩
      simp only [Option.some.injEq] at h
      rw [← h]
      rw [downgrade_eq_and]

theorem commitNvmGroups_forall2 {target : Target} {fl : FlasherEnv}
    {options : DownloadOptions} :
    ∀ groups gts, commitNvmGroups target fl options groups = some gts →
      List.Forall₂ (fun g e => e.1 = g.1 ∧
        commitGroup target fl options g.1.1 g.1.2 g.2 = some e.2) groups gts := by
  intro groups
  induction groups with
  | nil =>
    intro gts h
    simp only [commitNvmGroups, Option.some.injEq] at h
    rw [← h]
    exact List.Forall₂.nil
  | cons g rest ih =>
    intro gts h
    obtain ⟨key, regions⟩ := g
    simp only [commitNvmGroups] at h
    cases hcg : commitGroup target fl options key.1 key.2 regions with
    | none => rw [hcg] at h; cases h
    | some tr =>
      rw [hcg] at h
      cases hrest : commitNvmGroups target fl options rest with
      | none => rw [hrest] at h; cases h
      | some more =>
        rw [hrest] at h
        simp only [Option.some.injEq] at h
        rw [← h]
        exact List.Forall₂.cons ⟨rfl, hcg⟩ (ih more hrest)

/-- Extract the NVM pass outcome from a successful non-dry-run `commit`. -/
theorem commit_ok_nvm_groups {loader : FlashLoader} {target : Target}
    {fl : FlasherEnv} {options : DownloadOptions}
    {groups : List ((String × String) × List NvmRegion)}
    {gts : List ((String × String) × List FlashEvent)} {ram : List RamEvent}
    (hdry : options.dry_run = false)
    (hg : groupRegions loader target = .ok groups)
    (h : commit loader target fl options = some (.ok (gts, ram))) :
    commitNvmGroups target fl options groups = some gts := by
  rw [commit, hg, hdry] at h
  simp only [Bool.false_eq_true, if_false] at h
  cases hnvm : commitNvmGroups target fl options groups with
  | none => rw [hnvm] at h; cases h
  | some gts0 =>
    rw [hnvm] at h
    cases hram : commitRamLoop loader.builder target loader.memory_map with
    | none => rw [hram] at h; cases h
    | some r =>
      rw [hram] at h
      cases r with
      | error e => simp at h
      | ok ramEvents =>
        by_cases hv : options.verify = true
        · rw [hv] at h
          simp only [if_true] at h
          cases hver : verifyLoop fl target loader.builder.data with
          | none => rw [hver] at h; cases h
          | some v =>
            rw [hver] at h
            cases v with
            | error e => simp at h
            | ok u =>
              cases u
              simp only [Option.some.injEq, Except.ok.injEq, Prod.mk.injEq] at h
              rw [h.1]
        · rw [Bool.not_eq_true] at hv
          rw [hv] at h
          simp only [Bool.false_eq_true, if_false, Option.some.injEq,
            Except.ok.injEq, Prod.mk.injEq] at h
          rw [h.1]

/-- C1: for every `(algorithm, core)` group of a `commit` run, chip erase is
effective exactly when requested and supported: when requested but
unsupported no `run_erase_all` call appears and every `program` call gets
`skip_erase = options.skip_erase`; when effective, `run_erase_all` appears
exactly once for the whole group and every `program` call gets
`skip_erase = true`; and a successful non-dry-run `commit` runs exactly one
such group body per group. -/
theorem commit_chip_erase_per_group :
    (∀ (target : Target) (fl : FlasherEnv) (options : DownloadOptions)
      (algo_name core_name : String) (regions : List NvmRegion)
      (tr : List FlashEvent),
      commitGroup target fl options algo_name core_name regions = some tr →
      (options.do_chip_erase = true →
        fl.chipEraseSupported algo_name core_name = false →
        FlashEvent.eraseAll ∉ tr ∧
        ∃ dub, tr = regions.map (fun region =>
          FlashEvent.program region options.keep_unwritten_bytes dub
            options.skip_erase)) ∧
      (options.do_chip_erase = true →
        fl.chipEraseSupported algo_name core_name = true →
        tr.count FlashEvent.eraseAll = 1 ∧
        ∃ dub, tr = FlashEvent.eraseAll :: regions.map (fun region =>
          FlashEvent.program region options.keep_unwritten_bytes dub true))) ∧
    (∀ (loader : FlashLoader) (target : Target) (fl : FlasherEnv)
      (options : DownloadOptions) groups gts ram,
      options.dry_run = false →
      groupRegions loader target = .ok groups →
      commit loader target fl options = some (.ok (gts, ram)) →
      List.Forall₂ (fun g e => e.1 = g.1 ∧
        commitGroup target fl options g.1.1 g.1.2 g.2 = some e.2) groups gts) := by
  constructor
  · intro target fl options algo_name core_name regions tr h
    obtain ⟨algo, idx, _, _, htr⟩ := commitGroup_eq_some h
    constructor
    · intro hreq hsup
      rw [htr, hreq, hsup]
      simp only [Bool.and_false, Bool.false_eq_true, if_false, List.nil_append,
        Bool.or_false]
      constructor
      · simp
      · exact ⟨_, rfl⟩
    · intro hreq hsup
      rw [htr, hreq, hsup]
      simp only [Bool.and_true, if_true, Bool.or_true, List.singleton_append]
      constructor
      · rw [List.count_cons_self]
        have : (regions.map (fun region =>
            FlashEvent.program region options.keep_unwritten_bytes
              (if fl.doubleBufferingSupported algo_name core_name &&
                  options.disable_double_buffering
                then false else fl.doubleBufferingSupported algo_name core_name)
              true)).count FlashEvent.eraseAll = 0 := by
          rw [List.count_eq_zero]
          intro hmem
          simp only [List.mem_map] at hmem
          obtain ⟨r, _, hr⟩ := hmem
          cases hr
        omega
      · exact ⟨_, rfl⟩
  · intro loader target fl options groups gts ram hdry hg h
    exact commitNvmGroups_forall2 groups gts (commit_ok_nvm_groups hdry hg h)

/-- C1 witness: requesting chip erase on a flasher that does not support it
produces no `run_erase_all` call and programs with `skip_erase = false`. -/
theorem commit_chip_erase_per_group_witness :
    FlashEvent.eraseAll ∉ [FlashEvent.program regionAB false false false] ∧
    ∃ dub, [FlashEvent.program regionAB false false false] =
      [regionAB].map (fun region => FlashEvent.program region false dub false) :=
  (commit_chip_erase_per_group.1 targetAB flNoCE optsCE "A" "main" [regionAB]
    [FlashEvent.program regionAB false false false] rfl).1 rfl rfl

/-- The selector only ever produces its three selection errors. -/
theorem get_flash_algorithm_for_region_error_kinds {region : NvmRegion}
    {target : Target} {e : FlashError}
    (h : get_flash_algorithm_for_region region target = .error e) :
    e = .noFlashLoaderAlgorithmAttached target.name ∨
    e = .multipleFlashLoaderAlgorithmsNoDefault region ∨
    e = .multipleDefaultFlashLoaderAlgorithms region := by
  simp only [get_flash_algorithm_for_region] at h
  rcases hc : target.flash_algorithms.filter
      (fun fa => fa.flash_properties.address_range.containsRange region.range) with
    _ | ⟨a, _ | ⟨b, rest⟩⟩
  · rw [hc] at h
    left
    exact ((Except.error.injEq _ _).mp h).symm
  · rw [hc] at h
    cases h
  · rw [hc] at h
    rcases hd : ((a :: b :: rest).filter (fun fa => fa.default)) with
      _ | ⟨x, _ | ⟨y, drest⟩⟩ <;> rw [hd] at h
    · right; left
      exact ((Except.error.injEq _ _).mp h).symm
    · cases h
    · right; right
      exact ((Except.error.injEq _ _).mp h).symm

/-- The grouping loop skips RAM regions. -/
theorem groupLoop_cons_ram (builder : FlashBuilder) (target : Target)
    (acc : List ((String × String) × List NvmRegion)) (region : RamRegion)
    (rest : List MemoryRegion) :
    groupLoop builder target acc (.ram region :: rest) =
      groupLoop builder target acc rest := rfl

/-- The grouping loop skips generic regions. -/
theorem groupLoop_cons_generic (builder : FlashBuilder) (target : Target)
    (acc : List ((String × String) × List NvmRegion)) (region : GenericRegion)
    (rest : List MemoryRegion) :
    groupLoop builder target acc (.generic region :: rest) =
      groupLoop builder target acc rest := rfl

/-- The RAM pass skips NVM regions. -/
theorem commitRamLoop_cons_nvm (builder : FlashBuilder) (target : Target)
    (region : NvmRegion) (rest : List MemoryRegion) :
    commitRamLoop builder target (.nvm region :: rest) =
      commitRamLoop builder target rest := rfl

/-- The RAM pass skips generic regions. -/
theorem commitRamLoop_cons_generic (builder : FlashBuilder) (target : Target)
    (region : GenericRegion) (rest : List MemoryRegion) :
    commitRamLoop builder target (.generic region :: rest) =
      commitRamLoop builder target rest := rfl

/-- Any error out of the grouping pass: one of the three selection errors,
or `NoNvmCoreAccess` of a region whose core list is empty. -/
theorem groupLoop_error_kinds {builder : FlashBuilder} {target : Target} :
    ∀ (l : List MemoryRegion) (acc : List ((String × String) × List NvmRegion))
      (e : FlashError), groupLoop builder target acc l = .error e →
      (∃ n, e = .noFlashLoaderAlgorithmAttached n) ∨
      (∃ rg, e = .multipleFlashLoaderAlgorithmsNoDefault rg) ∨
      (∃ rg, e = .multipleDefaultFlashLoaderAlgorithms rg) ∨
      (∃ rg, e = .noNvmCoreAccess rg ∧ rg.cores = []) := by
  intro l
  induction l with
  | nil =>
    intro acc e h
    cases h
  | cons hd tl ih =>
    intro acc e h
    cases hd with
    | nvm region =>
      rw [groupLoop] at h
      by_cases hb : builder.has_data_in_range region.range
      · rw [hb] at h
        simp only [Bool.not_true, Bool.false_eq_true, if_false] at h
        cases hgf : get_flash_algorithm_for_region region target with
        | error e2 =>
          rw [hgf] at h
          have he : e2 = e := (Except.error.injEq _ _).mp h
          subst he
          rcases get_flash_algorithm_for_region_error_kinds hgf with h1 | h1 | h1
          · exact Or.inl ⟨_, h1⟩
          · exact Or.inr (Or.inl ⟨_, h1⟩)
          · exact Or.inr (Or.inr (Or.inl ⟨_, h1⟩))
        | ok algo =>
          rw [hgf] at h
          cases hh : region.cores.head? with
          | none =>
            rw [hh] at h
            have he : FlashError.noNvmCoreAccess region = e :=
              (Except.error.injEq _ _).mp h
            refine Or.inr (Or.inr (Or.inr ⟨region, he.symm, ?_⟩))
            simpa using hh
          | some cn =>
            rw [hh] at h
            exact ih _ _ h
      · rw [Bool.not_eq_true] at hb
        rw [hb] at h
        simp only [Bool.not_false, if_true] at h
        exact ih _ _ h
    | ram region =>
      rw [groupLoop_cons_ram] at h
      exact ih _ _ h
    | generic region =>
      rw [groupLoop_cons_generic] at h
      exact ih _ _ h

/-- A RAM-pass error is `NoRamCoreAccess` of a region with no cores. -/
theorem commitRamLoop_error_kinds {builder : FlashBuilder} {target : Target} :
    ∀ (l : List MemoryRegion) (e : FlashError),
      commitRamLoop builder target l = some (.error e) →
      ∃ rg, e = .noRamCoreAccess rg ∧ rg.cores = [] := by
  intro l
  induction l with
  | nil => intro e h; cases h
  | cons hd tl ih =>
    intro e h
    cases hd with
    | ram region =>
      rw [commitRamLoop] at h
      cases hh : region.cores.head? with
      | none =>
        rw [hh] at h
        simp only [Option.some.injEq, Except.error.injEq] at h
        refine ⟨region, h.symm, ?_⟩
        simpa using hh
      | some cn =>
        rw [hh] at h
        simp only [] at h
        cases hc : core_index_by_name target cn with
        | none =>
          rw [hc] at h
          simp only [] at h
          exact Option.noConfusion h
        | some idx =>
          rw [hc] at h
          simp only [] at h
          cases hrest : commitRamLoop builder target tl with
          | none =>
            rw [hrest] at h
            simp only [] at h
            exact Option.noConfusion h
          | some r =>
            rw [hrest] at h
            cases r with
            | error e2 =>
              simp only [Option.some.injEq, Except.error.injEq] at h
              subst h
              exact ih _ hrest
            | ok evs => simp at h
    | nvm region =>
      rw [commitRamLoop_cons_nvm] at h
      exact ih _ h
    | generic region =>
      rw [commitRamLoop_cons_generic] at h
      exact ih _ h

/-- A verify-pass error is always the readback mismatch. -/
theorem verifyLoop_error_kinds {fl : FlasherEnv} {target : Target} :
    ∀ (l : List (Nat × List Nat)) (e : FlashError),
      verifyLoop fl target l = some (.error e) → e = .verifyFailed := by
  intro l
  induction l with
  | nil => intro e h; cases h
  | cons hd tl ih =>
    intro e h
    obtain ⟨address, data⟩ := hd
    rw [verifyLoop] at h
    cases hr : get_memory_region_by_address target address with
    | none =>
      rw [hr] at h
      simp only [] at h
      exact Option.noConfusion h
    | some region =>
      rw [hr] at h
      simp only [] at h
      cases hh : region.cores.head? with
      | none =>
        rw [hh] at h
        simp only [] at h
        exact Option.noConfusion h
      | some cn =>
        rw [hh] at h
        simp only [] at h
        cases hc : core_index_by_name target cn with
        | none =>
          rw [hc] at h
          simp only [] at h
          exact Option.noConfusion h
        | some idx =>
          rw [hc] at h
          simp only [] at h
          by_cases hd2 : data ≠ fl.readBack address data.length
          · rw [if_pos hd2] at h
            simp only [Option.some.injEq, Except.error.injEq] at h
            exact h.symm
          · rw [if_neg hd2] at h
            exact ih _ h

/-- A non-panicking RAM pass resolved the first core of every RAM region it
visited. -/
theorem commitRamLoop_ok_cores {builder : FlashBuilder} {target : Target} :
    ∀ (l : List MemoryRegion) (evs : List RamEvent),
      commitRamLoop builder target l = some (.ok evs) →
      ∀ r : RamRegion, .ram r ∈ l →
        ∃ cn, r.cores.head? = some cn ∧ core_index_by_name target cn ≠ none := by
  intro l
  induction l with
  | nil =>
    intro evs _ r hr
    cases hr
  | cons hd tl ih =>
    intro evs h r hr
    cases hd with
    | ram region =>
      rw [commitRamLoop] at h
      cases hh : region.cores.head? with
      | none =>
        rw [hh] at h
        simp only [] at h
        simp at h
      | some cn =>
        rw [hh] at h
        simp only [] at h
        cases hc : core_index_by_name target cn with
        | none =>
          rw [hc] at h
          simp only [] at h
          exact Option.noConfusion h
        | some idx =>
          rw [hc] at h
          simp only [] at h
          rcases List.mem_cons.mp hr with heq | hmem
          · cases heq
            exact ⟨cn, hh, by rw [hc]; exact fun hx => Option.noConfusion hx⟩
          · cases hrest : commitRamLoop builder target tl with
            | none =>
              rw [hrest] at h
              simp only [] at h
              exact Option.noConfusion h
            | some rr =>
              rw [hrest] at h
              cases rr with
              | error e => simp at h
              | ok more => exact ih more hrest r hmem
    | nvm region =>
      rw [commitRamLoop_cons_nvm] at h
      rcases List.mem_cons.mp hr with heq | hmem
      · cases heq
      · exact ih evs h r hmem
    | generic region =>
      rw [commitRamLoop_cons_generic] at h
      rcases List.mem_cons.mp hr with heq | hmem
      · cases heq
      · exact ih evs h r hmem

theorem entryPush_keys_sub (acc : List ((String × String) × List NvmRegion))
    (key : String × String) (region : NvmRegion) :
    ∀ k, k ∈ acc.map Prod.fst → k ∈ (entryPush acc key region).map Prod.fst := by
  induction acc with
  | nil =>
    intro k hk
    cases hk
  | cons hd rest ih =>
    intro k hk
    obtain ⟨k0, rs0⟩ := hd
    rw [entryPush]
    by_cases he : k0 = key
    · rw [if_pos he]
      simpa using hk
    · rw [if_neg he]
      simp only [List.map_cons, List.mem_cons] at hk ⊢
      rcases hk with hk | hk
      · exact Or.inl hk
      · exact Or.inr (ih k hk)

theorem entryPush_key_mem (acc : List ((String × String) × List NvmRegion))
    (key : String × String) (region : NvmRegion) :
    key ∈ (entryPush acc key region).map Prod.fst := by
  induction acc with
  | nil => simp [entryPush]
  | cons hd rest ih =>
    obtain ⟨k0, rs0⟩ := hd
    rw [entryPush]
    by_cases he : k0 = key
    · rw [if_pos he]
      simp [he]
    · rw [if_neg he]
      simp only [List.map_cons, List.mem_cons]
      exact Or.inr ih

theorem groupLoop_keys_mono {builder : FlashBuilder} {target : Target} :
    ∀ (l : List MemoryRegion) acc groups,
      groupLoop builder target acc l = .ok groups →
      ∀ k, k ∈ acc.map Prod.fst → k ∈ groups.map Prod.fst := by
  intro l
  induction l with
  | nil =>
    intro acc groups h k hk
    have hag : acc = groups := (Except.ok.injEq _ _).mp h
    rw [← hag]
    exact hk
  | cons hd tl ih =>
    intro acc groups h k hk
    cases hd with
    | nvm region =>
      rw [groupLoop] at h
      by_cases hb : builder.has_data_in_range region.range
      · rw [hb] at h
        simp only [Bool.not_true, Bool.false_eq_true, if_false] at h
        cases hgf : get_flash_algorithm_for_region region target with
        | error e =>
          rw [hgf] at h
          cases h
        | ok algo =>
          rw [hgf] at h
          simp only [] at h
          cases hh : region.cores.head? with
          | none =>
            rw [hh] at h
            simp only [] at h
            cases h
          | some cn =>
            rw [hh] at h
            simp only [] at h
            exact ih _ groups h k (entryPush_keys_sub acc (algo.name, cn) region k hk)
      · rw [Bool.not_eq_true] at hb
        rw [hb] at h
        simp only [Bool.not_false, if_true] at h
        exact ih _ groups h k hk
    | ram region =>
      rw [groupLoop_cons_ram] at h
      exact ih _ groups h k hk
    | generic region =>
      rw [groupLoop_cons_generic] at h
      exact ih _ groups h k hk

/-- Every data-bearing NVM region of a successful grouping pass contributed
its first core name to some group key. -/
theorem groupLoop_data_key {builder : FlashBuilder} {target : Target} :
    ∀ (l : List MemoryRegion) acc groups,
      groupLoop builder target acc l = .ok groups →
      ∀ r : NvmRegion, .nvm r ∈ l → builder.has_data_in_range r.range = true →
      ∃ cn an, r.cores.head? = some cn ∧ (an, cn) ∈ groups.map Prod.fst := by
  intro l
  induction l with
  | nil =>
    intro acc groups _ r hr
    cases hr
  | cons hd tl ih =>
    intro acc groups h r hr hdata
    cases hd with
    | nvm region =>
      rcases List.mem_cons.mp hr with heq | hmem
      · have hreq : r = region := by
          cases heq
          rfl
        subst hreq
        rw [groupLoop] at h
        rw [hdata] at h
        simp only [Bool.not_true, Bool.false_eq_true, if_false] at h
        cases hgf : get_flash_algorithm_for_region r target with
        | error e =>
          rw [hgf] at h
          cases h
        | ok algo =>
          rw [hgf] at h
          simp only [] at h
          cases hh : r.cores.head? with
          | none =>
            rw [hh] at h
            simp only [] at h
            cases h
          | some cn =>
            rw [hh] at h
            simp only [] at h
            refine ⟨cn, algo.name, rfl, ?_⟩
            exact groupLoop_keys_mono tl _ groups h (algo.name, cn)
              (entryPush_key_mem acc (algo.name, cn) r)
      · rw [groupLoop] at h
        by_cases hb : builder.has_data_in_range region.range
        · rw [hb] at h
          simp only [Bool.not_true, Bool.false_eq_true, if_false] at h
          cases hgf : get_flash_algorithm_for_region region target with
          | error e =>
            rw [hgf] at h
            cases h
          | ok algo =>
            rw [hgf] at h
            simp only [] at h
            cases hh : region.cores.head? with
            | none =>
              rw [hh] at h
              simp only [] at h
              cases h
            | some cn =>
              rw [hh] at h
              simp only [] at h
              exact ih _ groups h r hmem hdata
        · rw [Bool.not_eq_true] at hb
          rw [hb] at h
          simp only [Bool.not_false, if_true] at h
          exact ih _ groups h r hmem hdata
    | ram region =>
      rw [groupLoop_cons_ram] at h
      rcases List.mem_cons.mp hr with heq | hmem
      · cases heq
      · exact ih _ groups h r hmem hdata
    | generic region =>
      rw [groupLoop_cons_generic] at h
      rcases List.mem_cons.mp hr with heq | hmem
      · cases heq
      · exact ih _ groups h r hmem hdata

/-- A non-panicking NVM pass resolved the core index of every group key. -/
theorem commitNvmGroups_some_core {target : Target} {fl : FlasherEnv}
    {options : DownloadOptions} :
    ∀ groups gts, commitNvmGroups target fl options groups = some gts →
      ∀ g ∈ groups, target.cores.findIdx? (fun c => c.name == g.1.2) ≠ none := by
  intro groups
  induction groups with
  | nil =>
    intro gts _ g hg
    cases hg
  | cons ghead rest ih =>
    intro gts h g hg
    obtain ⟨key, regions⟩ := ghead
    simp only [commitNvmGroups] at h
    cases hcg : commitGroup target fl options key.1 key.2 regions with
    | none =>
      rw [hcg] at h
      simp only [] at h
      exact Option.noConfusion h
    | some tr =>
      rw [hcg] at h
      simp only [] at h
      rcases List.mem_cons.mp hg with heq | hmem
      · subst heq
        obtain ⟨algo, idx, _, hidx, _⟩ := commitGroup_eq_some hcg
        rw [hidx]
        exact fun hx => Option.noConfusion hx
      · cases hrest : commitNvmGroups target fl options rest with
        | none =>
          rw [hrest] at h
          simp only [] at h
          exact Option.noConfusion h
        | some more => exact ih more hrest g hmem

/-- A group whose core name is undeclared makes its group body panic. -/
theorem commitGroup_none_of_bad_core {target : Target} {fl : FlasherEnv}
    {options : DownloadOptions} {algo_name core_name : String}
    {regions : List NvmRegion}
    (h : target.cores.findIdx? (fun c => c.name == core_name) = none) :
    commitGroup target fl options algo_name core_name regions = none := by
  rw [commitGroup]
  cases flash_algorithm_by_name target algo_name with
  | none => rfl
  | some algo =>
    simp only []
    rw [h]

/-- A group list containing an undeclared core name makes the NVM pass
panic. -/
theorem commitNvmGroups_none_of_bad {target : Target} {fl : FlasherEnv}
    {options : DownloadOptions} :
    ∀ groups,
      (∃ g ∈ groups, target.cores.findIdx? (fun c => c.name == g.1.2) = none) →
      commitNvmGroups target fl options groups = none := by
  intro groups
  induction groups with
  | nil =>
    rintro ⟨g, hg, _⟩
    cases hg
  | cons ghead rest ih =>
    rintro ⟨g, hg, hbad⟩
    obtain ⟨key, regions⟩ := ghead
    rcases List.mem_cons.mp hg with heq | hmem
    · subst heq
      simp only [commitNvmGroups]
      rw [commitGroup_none_of_bad_core hbad]
    · simp only [commitNvmGroups]
      cases hcg : commitGroup target fl options key.1 key.2 regions with
      | none => rfl
      | some tr =>
        simp only []
        rw [ih ⟨g, hmem, hbad⟩]

/-- Decomposition of a successful non-dry-run `commit`. -/
theorem commit_ok_parts {loader : FlashLoader} {target : Target}
    {fl : FlasherEnv} {options : DownloadOptions}
    {gts : List ((String × String) × List FlashEvent)} {ram : List RamEvent}
    (hdry : options.dry_run = false)
    (h : commit loader target fl options = some (.ok (gts, ram))) :
    ∃ groups, groupRegions loader target = .ok groups ∧
      commitNvmGroups target fl options groups = some gts ∧
      commitRamLoop loader.builder target loader.memory_map = some (.ok ram) := by
  cases hg : groupRegions loader target with
  | error e =>
    rw [commit, hg] at h
    simp at h
  | ok groups =>
    refine ⟨groups, rfl, commit_ok_nvm_groups hdry hg h, ?_⟩
    rw [commit, hg, hdry] at h
    simp only [Bool.false_eq_true, if_false] at h
    cases hnvm : commitNvmGroups target fl options groups with
    | none => rw [hnvm] at h; cases h
    | some gts0 =>
      rw [hnvm] at h
      cases hram : commitRamLoop loader.builder target loader.memory_map with
      | none => rw [hram] at h; cases h
      | some r =>
        rw [hram] at h
        cases r with
        | error e => simp at h
        | ok ramEvents =>
          by_cases hv : options.verify = true
          · rw [hv] at h
            simp only [if_true] at h
            cases hver : verifyLoop fl target loader.builder.data with
            | none => rw [hver] at h; cases h
            | some v =>
              rw [hver] at h
              cases v with
              | error e => simp at h
              | ok u =>
                cases u
                simp only [Option.some.injEq, Except.ok.injEq, Prod.mk.injEq] at h
                rw [h.2]
          · rw [Bool.not_eq_true] at hv
            rw [hv] at h
            simp only [Bool.false_eq_true, if_false, Option.some.injEq,
              Except.ok.injEq, Prod.mk.injEq] at h
            rw [h.2]

theorem groupLoop_mm (builder : FlashBuilder) (target : Target)
    (mm : List MemoryRegion) :
    ∀ (l : List MemoryRegion) acc,
      groupLoop builder { target with memory_map := mm } acc l =
        groupLoop builder target acc l := by
  intro l
  induction l with
  | nil =>
    intro acc
    rfl
  | cons hd tl ih =>
    intro acc
    cases hd with
    | nvm region =>
      rw [groupLoop, groupLoop]
      by_cases hb : builder.has_data_in_range region.range
      · rw [hb]
        simp only [Bool.not_true, Bool.false_eq_true, if_false]
        have hgf : get_flash_algorithm_for_region region
            { target with memory_map := mm } =
            get_flash_algorithm_for_region region target := rfl
        rw [hgf]
        cases get_flash_algorithm_for_region region target with
        | error e => rfl
        | ok algo =>
          simp only []
          cases region.cores.head? with
          | none => rfl
          | some cn =>
            simp only []
            exact ih _
      · rw [Bool.not_eq_true] at hb
        rw [hb]
        simp only [Bool.not_false, if_true]
        exact ih acc
    | ram region =>
      rw [groupLoop_cons_ram, groupLoop_cons_ram]
      exact ih acc
    | generic region =>
      rw [groupLoop_cons_generic, groupLoop_cons_generic]
      exact ih acc

theorem groupRegions_mm (loader : FlashLoader) (target : Target)
    (mm : List MemoryRegion) :
    groupRegions loader { target with memory_map := mm } =
      groupRegions loader target :=
  groupLoop_mm loader.builder target mm loader.memory_map []

theorem commitRamLoop_mm (builder : FlashBuilder) (target : Target)
    (mm : List MemoryRegion) :
    ∀ l, commitRamLoop builder { target with memory_map := mm } l =
      commitRamLoop builder target l := by
  intro l
  induction l with
  | nil => rfl
  | cons hd tl ih =>
    cases hd with
    | ram region =>
      rw [commitRamLoop, commitRamLoop]
      cases region.cores.head? with
      | none => rfl
      | some cn =>
        simp only []
        have hc : core_index_by_name { target with memory_map := mm } cn =
            core_index_by_name target cn := rfl
        rw [hc]
        cases core_index_by_name target cn with
        | none => rfl
        | some idx =>
          simp only []
          rw [ih]
    | nvm region =>
      rw [commitRamLoop_cons_nvm, commitRamLoop_cons_nvm]
      exact ih
    | generic region =>
      rw [commitRamLoop_cons_generic, commitRamLoop_cons_generic]
      exact ih

theorem commitNvmGroups_mm (target : Target) (mm : List MemoryRegion)
    (fl : FlasherEnv) (options : DownloadOptions) :
    ∀ groups, commitNvmGroups { target with memory_map := mm } fl options groups =
      commitNvmGroups target fl options groups := by
  intro groups
  induction groups with
  | nil => rfl
  | cons g rest ih =>
    obtain ⟨key, regions⟩ := g
    rw [commitNvmGroups, commitNvmGroups]
    have hcg : commitGroup { target with memory_map := mm } fl options
        key.1 key.2 regions = commitGroup target fl options key.1 key.2 regions := rfl
    rw [hcg]
    cases commitGroup target fl options key.1 key.2 regions with
    | none => rfl
    | some tr =>
      simp only []
      rw [ih]

/-- Any `commit` error naming a core-less region really had a core-less
region: `NoNvmCoreAccess` / `NoRamCoreAccess` are produced only with an
empty core list. -/
theorem commit_error_core_access {loader : FlashLoader} {target : Target}
    {fl : FlasherEnv} {options : DownloadOptions} :
    ∀ e, commit loader target fl options = some (.error e) →
      (∀ r : NvmRegion, e = .noNvmCoreAccess r → r.cores = []) ∧
      (∀ r : RamRegion, e = .noRamCoreAccess r → r.cores = []) := by
  intro e h
  cases hg : groupRegions loader target with
  | error e0 =>
    rw [commit, hg] at h
    simp only [Option.some.injEq, Except.error.injEq] at h
    subst h
    rcases groupLoop_error_kinds loader.memory_map [] e0 hg with
      ⟨n, hk⟩ | ⟨rg, hk⟩ | ⟨rg, hk⟩ | ⟨rg, hk, hcores⟩ <;> subst hk
    · exact ⟨fun r hr => FlashError.noConfusion hr,
        fun r hr => FlashError.noConfusion hr⟩
    · exact ⟨fun r hr => FlashError.noConfusion hr,
        fun r hr => FlashError.noConfusion hr⟩
    · exact ⟨fun r hr => FlashError.noConfusion hr,
        fun r hr => FlashError.noConfusion hr⟩
    · refine ⟨?_, fun r hr => FlashError.noConfusion hr⟩
      intro r hr
      cases hr
      exact hcores
  | ok groups =>
    rw [commit, hg] at h
    by_cases hdry : options.dry_run = true
    · rw [hdry] at h
      simp at h
    · rw [Bool.not_eq_true] at hdry
      rw [hdry] at h
      simp only [Bool.false_eq_true, if_false] at h
      cases hnvm : commitNvmGroups target fl options groups with
      | none => rw [hnvm] at h; cases h
      | some gts0 =>
        rw [hnvm] at h
        cases hram : commitRamLoop loader.builder target loader.memory_map with
        | none => rw [hram] at h; cases h
        | some r0 =>
          rw [hram] at h
          cases r0 with
          | error e2 =>
            simp only [Option.some.injEq, Except.error.injEq] at h
            subst h
            obtain ⟨rg, hk, hcores⟩ :=
              commitRamLoop_error_kinds loader.memory_map _ hram
            subst hk
            refine ⟨fun r hr => FlashError.noConfusion hr, ?_⟩
            intro r hr
            cases hr
            exact hcores
          | ok ramEvents =>
            by_cases hv : options.verify = true
            · rw [hv] at h
              simp only [if_true] at h
              cases hver : verifyLoop fl target loader.builder.data with
              | none => rw [hver] at h; cases h
              | some v =>
                rw [hver] at h
                cases v with
                | error e3 =>
                  simp only [Option.some.injEq, Except.error.injEq] at h
                  subst h
                  have := verifyLoop_error_kinds loader.builder.data _ hver
                  subst this
                  exact ⟨fun r hr => FlashError.noConfusion hr,
                    fun r hr => FlashError.noConfusion hr⟩
                | ok u => cases u; simp at h
            · rw [Bool.not_eq_true] at hv
              rw [hv] at h
              simp at h

/-- C9 (amended): `commit` resolves core names by unchecked lookups. It
returns `NoNvmCoreAccess` / `NoRamCoreAccess` only for a region whose core
list is empty; outside dry-run, a formed group whose core name is not
declared by the target makes `commit` panic instead of returning an error;
a non-dry-run `commit` that completes without panic resolved the first core
of every RAM region and of every data-bearing NVM region; and a mismatch
between the loader snapshot and the target memory map changes nothing
observable outside the verify pass. -/
theorem commit_core_lookup_panics :
    (∀ (loader : FlashLoader) (target : Target) (fl : FlasherEnv)
      (options : DownloadOptions) (e : FlashError),
      commit loader target fl options = some (.error e) →
      (∀ r : NvmRegion, e = .noNvmCoreAccess r → r.cores = []) ∧
      (∀ r : RamRegion, e = .noRamCoreAccess r → r.cores = [])) ∧
    (∀ (loader : FlashLoader) (target : Target) (fl : FlasherEnv)
      (options : DownloadOptions) groups,
      options.dry_run = false →
      groupRegions loader target = .ok groups →
      (∃ g ∈ groups, core_index_by_name target g.1.2 = none) →
      commit loader target fl options = none) ∧
    (∀ (loader : FlashLoader) (target : Target) (fl : FlasherEnv)
      (options : DownloadOptions) gts ram,
      options.dry_run = false →
      commit loader target fl options = some (.ok (gts, ram)) →
      (∀ r : RamRegion, .ram r ∈ loader.memory_map →
        ∃ cn, r.cores.head? = some cn ∧ core_index_by_name target cn ≠ none) ∧
      (∀ r : NvmRegion, .nvm r ∈ loader.memory_map →
        loader.builder.has_data_in_range r.range = true →
        ∃ cn, r.cores.head? = some cn ∧ core_index_by_name target cn ≠ none)) ∧
    (∀ (loader : FlashLoader) (target : Target) (mm : List MemoryRegion)
      (fl : FlasherEnv) (options : DownloadOptions),
      options.verify = false →
      commit loader { target with memory_map := mm } fl options =
        commit loader target fl options) := by
  refine ⟨?_, ?_, ?_, ?_⟩
  · intro loader target fl options e h
    exact commit_error_core_access e h
  · intro loader target fl options groups hdry hg hbad
    rw [commit, hg, hdry]
    simp only [Bool.false_eq_true, if_false]
    rw [commitNvmGroups_none_of_bad groups hbad]
  · intro loader target fl options gts ram hdry h
    obtain ⟨groups, hg, hnvm, hram⟩ := commit_ok_parts hdry h
    constructor
    · intro r hr
      exact commitRamLoop_ok_cores loader.memory_map ram hram r hr
    · intro r hr hdata
      obtain ⟨cn, an, hhead, hkey⟩ :=
        groupLoop_data_key loader.memory_map [] groups hg r hr hdata
      obtain ⟨g, hgm, hg1⟩ := List.mem_map.mp hkey
      refine ⟨cn, hhead, ?_⟩
      have := commitNvmGroups_some_core groups gts hnvm g hgm
      rw [core_index_by_name]
      rw [hg1] at this
      exact this
  · intro loader target mm fl options hv
    rw [commit, commit, groupRegions_mm]
    cases groupRegions loader target with
    | error e => rfl
    | ok groups =>
      simp only []
      by_cases hdry : options.dry_run = true
      · simp only [hdry, if_true]
      · rw [Bool.not_eq_true] at hdry
        simp only [hdry, Bool.false_eq_true, if_false]
        rw [commitNvmGroups_mm]
        cases commitNvmGroups target fl options groups with
        | none => rfl
        | some gts =>
          simp only []
          rw [commitRamLoop_mm]
          cases commitRamLoop loader.builder target loader.memory_map with
          | none => rfl
          | some r =>
            cases r with
            | error e => rfl
            | ok ramEvents =>
              simp only [hv, Bool.false_eq_true, if_false]

/-- C9 counterexample: the claim says a region naming an undeclared first
core makes `commit` panic, and that `commit` completes without panic only
when every region first core is declared; but with no staged data the
region is skipped before the core lookup and this non-dry-run `commit`
completes normally. -/
theorem commit_unknown_core_dataless_no_panic :
    commit c9Loader targetAB flNoCE optsCE = some (.ok ([], [])) ∧
    targetAB.cores.all (fun c => c.name != "ghost") = true ∧
    MemoryRegion.nvm { range := ⟨0, 0x100⟩, cores := ["ghost"] } ∈
      c9Loader.memory_map ∧
    optsCE.dry_run = false := by
  refine ⟨rfl, by decide, by simp [c9Loader], rfl⟩

/-- C9 witness: a data-bearing NVM region naming the undeclared core
`ghost` makes the whole `commit` panic. -/
theorem commit_core_lookup_panics_witness :
    commit c9LoaderData targetAB flNoCE optsCE = none :=
  commit_core_lookup_panics.2.1 c9LoaderData targetAB flNoCE optsCE
    [(("B", "ghost"), [{ range := ⟨0, 0x10⟩, cores := ["ghost"] }])] rfl rfl
    ⟨(("B", "ghost"), [{ range := ⟨0, 0x10⟩, cores := ["ghost"] }]),
      List.mem_singleton.mpr rfl, rfl⟩

end ProbeRs
